import Mathlib

/-!
Verification development for the `paqt` folder-archiving tool.

The development embeds the program's core — the traversal engine that
snapshots a directory tree into a `metadata.csv` ledger, the ledger merge
semantics, and the restore engine that reapplies recorded timestamps —
as executable Lean definitions, and proves (or refutes) the specified
properties about them.

Conventions used throughout:
* Machine timestamps are `Int` values counting milliseconds since the Unix
  epoch (the JavaScript time value).
* Filesystem paths are lists of name components (`List String`); the
  program's path strings are the components joined by `'/'`.  `[]` denotes
  the scanned root, so a component list is exactly the root-relative path
  the program stores in the ledger.
* Fallible operations return `Option`; a `process.exit` outcome is modelled
  explicitly where the source can reach one.
-/

/-! ## Calendar arithmetic

`Date.prototype.toISOString` and ISO-8601 parsing by the `Date`
constructor are specified by ECMAScript in terms of the proleptic
Gregorian calendar on the time value.  The functions below implement that
calendar.  To keep every quantity a `Nat`, years are counted from the year
-2000000 (a multiple of 400, so leap-year structure is preserved); the
JavaScript year of a shifted year `y` is `y - 2000000`.
-/

/-- Gregorian leap-year predicate (on shifted years; the shift is a
multiple of 400 so this agrees with the calendar year). -/
def isLeapYear (y : Nat) : Bool :=
  (y % 4 == 0 && y % 100 != 0) || (y % 400 == 0)

/-- Number of leap years strictly before shifted year `y` (year 0 of the
shifted count is a leap year). -/
def leapsBefore (y : Nat) : Nat :=
  (y + 3) / 4 - (y + 99) / 100 + (y + 399) / 400

/-- Days from the start of shifted year 0 to the start of shifted year `y`. -/
def daysToYearStart (y : Nat) : Nat :=
  365 * y + leapsBefore y

/-- The shifted year containing day `n` (days counted from the start of
shifted year 0).  A first guess `400 * n / 146097` (146097 days per 400
years) is off by at most one and is corrected against `daysToYearStart`. -/
def yearOfDay (n : Nat) : Nat :=
  let g := 400 * n / 146097
  if n < daysToYearStart g then g - 1
  else if n < daysToYearStart (g + 1) then g
  else g + 1

/-- Days from the start of the year to the start of month `m` (1-12).
The wildcard row is the full year length, so `daysBeforeMonth leap 13`
is the day count of the year. -/
def daysBeforeMonth (leap : Bool) (m : Nat) : Nat :=
  let L := if leap then 1 else 0
  match m with
  | 1 => 0
  | 2 => 31
  | 3 => 59 + L
  | 4 => 90 + L
  | 5 => 120 + L
  | 6 => 151 + L
  | 7 => 181 + L
  | 8 => 212 + L
  | 9 => 243 + L
  | 10 => 273 + L
  | 11 => 304 + L
  | 12 => 334 + L
  | _ => 365 + L

/-- Length of month `m` (1-12). -/
def daysInMonth (leap : Bool) (m : Nat) : Nat :=
  daysBeforeMonth leap (m + 1) - daysBeforeMonth leap m

/-- Month (1-12) containing day `doy` (0-based) of a year. -/
def monthOfYearDay (leap : Bool) (doy : Nat) : Nat :=
  if doy < daysBeforeMonth leap 2 then 1
  else if doy < daysBeforeMonth leap 3 then 2
  else if doy < daysBeforeMonth leap 4 then 3
  else if doy < daysBeforeMonth leap 5 then 4
  else if doy < daysBeforeMonth leap 6 then 5
  else if doy < daysBeforeMonth leap 7 then 6
  else if doy < daysBeforeMonth leap 8 then 7
  else if doy < daysBeforeMonth leap 9 then 8
  else if doy < daysBeforeMonth leap 10 then 9
  else if doy < daysBeforeMonth leap 11 then 10
  else if doy < daysBeforeMonth leap 12 then 11
  else 12

/-- Shifted year, month (1-12) and day of month (1-31) of day `n`. -/
def civilOfDay (n : Nat) : Nat × Nat × Nat :=
  let y := yearOfDay n
  let doy := n - daysToYearStart y
  let leap := isLeapYear y
  let m := monthOfYearDay leap doy
  (y, m, doy - daysBeforeMonth leap m + 1)

/-! ## ISO-8601 serialization (`src/utils.ts`: `toISOString`, `fromISOString`)

`toISOString(date)` in the source is `date.toISOString()`; `fromISOString`
is `new Date(isoString)`.  Both are modelled against their ECMAScript
specification on integer millisecond time values.  The number of days from
the start of shifted year 0 to the Unix epoch is
`daysToYearStart 2001970 = 731204528`.
-/

/-- The decimal digit character for `d` (0-9). -/
def digitChar (d : Nat) : Char := Char.ofNat (48 + d)

/-- Two zero-padded decimal digits. -/
def pad2 (n : Nat) : List Char :=
  [digitChar (n / 10 % 10), digitChar (n % 10)]

/-- Three zero-padded decimal digits. -/
def pad3 (n : Nat) : List Char :=
  [digitChar (n / 100 % 10), digitChar (n / 10 % 10), digitChar (n % 10)]

/-- Four zero-padded decimal digits. -/
def pad4 (n : Nat) : List Char :=
  [digitChar (n / 1000 % 10), digitChar (n / 100 % 10), digitChar (n / 10 % 10),
   digitChar (n % 10)]

/-- Six zero-padded decimal digits (expanded-year format). -/
def pad6 (n : Nat) : List Char :=
  [digitChar (n / 100000 % 10), digitChar (n / 10000 % 10), digitChar (n / 1000 % 10),
   digitChar (n / 100 % 10), digitChar (n / 10 % 10), digitChar (n % 10)]

/-- The character list `YYYY-MM-DDTHH:mm:ss.sssZ` built from calendar
components (`y` is the shifted year; years outside 0-9999 use the
ECMAScript expanded `±YYYYYY` form). -/
def isoChars (y m d hh mi ss ms : Nat) : List Char :=
  let datePart : List Char :=
    if 2000000 ≤ y ∧ y < 2010000 then pad4 (y - 2000000)
    else if y < 2000000 then '-' :: pad6 (2000000 - y)
    else '+' :: pad6 (y - 2000000)
  datePart ++ '-' :: (pad2 m ++ '-' :: (pad2 d ++ 'T' ::
    (pad2 hh ++ ':' :: (pad2 mi ++ ':' :: (pad2 ss ++ '.' :: (pad3 ms ++ ['Z']))))))

/-- `Date.prototype.toISOString` on an integer time value `t`
(milliseconds since the epoch): format the UTC calendar components of `t`
with millisecond precision and a `Z` suffix. -/
def toISOString (t : Int) : String :=
  let day := t / 86400000
  let msod := (t % 86400000).toNat
  let n := (day + 731204528).toNat
  let c := civilOfDay n
  String.mk (isoChars c.1 c.2.1 c.2.2 (msod / 3600000) (msod / 60000 % 60)
    (msod / 1000 % 60) (msod % 1000))

/-- Decimal digit predicate. -/
def isDig (c : Char) : Prop := 48 ≤ c.toNat ∧ c.toNat ≤ 57

instance (c : Char) : Decidable (isDig c) := by
  unfold isDig; infer_instance

/-- Value of a decimal digit character. -/
def digVal (c : Char) : Nat := c.toNat - 48

/-- ECMAScript `MakeDay`/`MakeDate`/`TimeClip` on validated ISO fields:
calendar-validate the fields, convert to a time value, and clip to the
representable `Date` range.  `yr` is the (unshifted) calendar year. -/
def mkInstant (yr : Int) (mo dy hh mi ss ms : Nat) : Option Int :=
  if -2000000 ≤ yr ∧ 1 ≤ mo ∧ mo ≤ 12 ∧ 1 ≤ dy ∧ hh ≤ 23 ∧ mi ≤ 59 ∧ ss ≤ 59 then
    let y := (yr + 2000000).toNat
    if dy ≤ daysInMonth (isLeapYear y) mo then
      let day : Int :=
        (daysToYearStart y + daysBeforeMonth (isLeapYear y) mo + (dy - 1) : Nat) - 731204528
      let t := day * 86400000 + (hh * 3600000 + mi * 60000 + ss * 1000 + ms : Nat)
      if t.natAbs ≤ 8640000000000000 then some t else none
    else none
  else none

/-- Parse the 24-character `YYYY-MM-DDTHH:mm:ss.sssZ` shape. -/
def parseIso24 : List Char → Option Int
  | [y1, y2, y3, y4, a1, m1, m2, a2, d1, d2, a3, h1, h2, a4, i1, i2, a5, s1, s2, a6,
     p1, p2, p3, a7] =>
    if a1 = '-' ∧ a2 = '-' ∧ a3 = 'T' ∧ a4 = ':' ∧ a5 = ':' ∧ a6 = '.' ∧ a7 = 'Z' ∧
       isDig y1 ∧ isDig y2 ∧ isDig y3 ∧ isDig y4 ∧ isDig m1 ∧ isDig m2 ∧
       isDig d1 ∧ isDig d2 ∧ isDig h1 ∧ isDig h2 ∧ isDig i1 ∧ isDig i2 ∧
       isDig s1 ∧ isDig s2 ∧ isDig p1 ∧ isDig p2 ∧ isDig p3 then
      mkInstant (digVal y1 * 1000 + digVal y2 * 100 + digVal y3 * 10 + digVal y4 : Nat)
        (digVal m1 * 10 + digVal m2) (digVal d1 * 10 + digVal d2)
        (digVal h1 * 10 + digVal h2) (digVal i1 * 10 + digVal i2)
        (digVal s1 * 10 + digVal s2) (digVal p1 * 100 + digVal p2 * 10 + digVal p3)
    else none
  | _ => none

/-- Parse the 27-character expanded-year `±YYYYYY-MM-DD…` shape. -/
def parseIso27 : List Char → Option Int
  | [sg, y1, y2, y3, y4, y5, y6, a1, m1, m2, a2, d1, d2, a3, h1, h2, a4, i1, i2, a5,
     s1, s2, a6, p1, p2, p3, a7] =>
    if a1 = '-' ∧ a2 = '-' ∧ a3 = 'T' ∧ a4 = ':' ∧ a5 = ':' ∧ a6 = '.' ∧ a7 = 'Z' ∧
       isDig y1 ∧ isDig y2 ∧ isDig y3 ∧ isDig y4 ∧ isDig y5 ∧ isDig y6 ∧
       isDig m1 ∧ isDig m2 ∧ isDig d1 ∧ isDig d2 ∧ isDig h1 ∧ isDig h2 ∧
       isDig i1 ∧ isDig i2 ∧ isDig s1 ∧ isDig s2 ∧ isDig p1 ∧ isDig p2 ∧ isDig p3 then
      let yabs : Nat := digVal y1 * 100000 + digVal y2 * 10000 + digVal y3 * 1000 +
        digVal y4 * 100 + digVal y5 * 10 + digVal y6
      let rest := fun (yr : Int) => mkInstant yr
        (digVal m1 * 10 + digVal m2) (digVal d1 * 10 + digVal d2)
        (digVal h1 * 10 + digVal h2) (digVal i1 * 10 + digVal i2)
        (digVal s1 * 10 + digVal s2) (digVal p1 * 100 + digVal p2 * 10 + digVal p3)
      if sg = '+' then rest (yabs : Int)
      else if sg = '-' then
        -- ECMAScript forbids the expanded year -000000.
        if yabs = 0 then none else rest (-(yabs : Int))
      else none
    else none
  | _ => none

/-- ISO-8601 date-time parsing as performed by `new Date(string)` on the
ECMAScript Date Time String Format, restricted to the two complete shapes
the ledger wire format can contain (other accepted input shapes never
arise from `toISOString` output and are immaterial here).  Dispatch is on
the length of the character list: 24 characters for `YYYY-…`, 27 for the
expanded `±YYYYYY-…`. -/
def parseIsoChars (l : List Char) : Option Int :=
  match l.length with
  | 24 => parseIso24 l
  | 27 => parseIso27 l
  | _ => none

/-- `fromISOString(isoString)` from `src/utils.ts`: `new Date(isoString)`.
`none` models an Invalid Date. -/
def fromISOString (s : String) : Option Int := parseIsoChars s.data

/-! ## Data model shared by the scanners

`FileMetadata` is the ledger row type from `src/types.ts`.  A `DirEntry`
is a `fs.Dirent` as seen by the scanners (name plus the type bits
consulted by the code).  An `FS` is the filesystem interface the
traversal consumes: canonical-path resolution, directory listing and
mtime stat, each fallible (`none` models the call throwing).  All
functions are keyed by root-relative component lists; the scanned root is
`[]`.
-/

/-- Ledger row (`FileMetadata` in `src/types.ts`): root-relative path and
ISO-8601 modification time.  The path is stored as its component list;
the CSV writes the components joined by `'/'`. -/
structure FileMetadata where
  path : List String
  modifiedTime : String
deriving DecidableEq, Repr

/-- A directory entry (`fs.Dirent`) with the fields the scanners consult. -/
structure DirEntry where
  name : String
  isSymbolicLink : Bool
  isDirectory : Bool
  isFile : Bool
deriving DecidableEq, Repr

/-- Filesystem interface consumed by the traversal engine.  `realpath`
yields the canonical (symlink-resolved) identity of a directory, `none`
when resolution throws; `readdir` lists a directory, `none` when listing
throws; `statMtime` yields a file's mtime in epoch milliseconds, `none`
when `fs.stat` throws. -/
structure FS where
  realpath : List String → Option String
  readdir : List String → Option (List DirEntry)
  statMtime : List String → Option Int

/-- On-disk state of a `metadata.csv` ledger file as seen by the tolerant
loader: absent, present but unparsable, or parsed rows. -/
inductive LedgerFile where
  | absent
  | corrupt
  | ok (rows : List FileMetadata)
deriving DecidableEq, Repr

/-- `loadExistingMetadata` from `src/scanner.ts`: read and parse the CSV,
returning `[]` when the file is missing or invalid (the catch swallows
both failure modes). -/
def loadExistingMetadata : LedgerFile → List FileMetadata
  | .absent => []
  | .corrupt => []
  | .ok rows => rows

/-! ## The name heuristic `isSymlink` (`src/utils.ts`)

The source reads:
`path.split('/').pop() || ''` followed by `filename.match(/\.l.*nk$/i) !== null`.
The regex matches when the basename contains a literal `'.'` followed by
`l`/`L` and, at some later position, ends with `nk` (case-insensitive).
-/

/-- ASCII case folding on code points (`/i` regex flag). -/
def lowerNat (c : Char) : Nat :=
  if 65 ≤ c.toNat ∧ c.toNat ≤ 90 then c.toNat + 32 else c.toNat

/-- Test of the regex `/\.l.*nk$/i` against a character list: the list
ends with `nk` (case-insensitive) and contains `.l` (case-insensitive on
the `l`) starting at least four characters from the end. -/
def matchesLnk (l : List Char) : Bool :=
  decide (4 ≤ l.length) &&
  decide (lowerNat (l.getD (l.length - 2) ' ') = 110) &&
  decide (lowerNat (l.getD (l.length - 1) ' ') = 107) &&
  (List.range (l.length - 3)).any (fun i =>
    decide (l.getD i ' ' = '.') && decide (lowerNat (l.getD (i + 1) ' ') = 108))

/-- `isSymlink` from `src/utils.ts`: match the basename of `path` against
the symlink-like name pattern `/\.l.*nk$/i`.  The source takes
`path.split('/').pop() || ''`, i.e. the characters after the last `'/'`
(the whole string when there is none, the empty string after a trailing
slash — both agreeing with this model). -/
def isSymlink (path : String) : Bool :=
  matchesLnk (path.data.reverse.takeWhile (fun c => !(c = '/'))).reverse

/-! ## Diagnostics of the traversal engine (`scanDirectory` in `src/cli.ts`)

The engine accumulates, in one `diagnostics` object threaded through the
whole walk, the skipped paths and one issue entry per failure.  Issue
kinds mirror the tags in the source (`DEEP_NESTING`, `PERMISSION_DENIED`,
`CIRCULAR_SYMLINK`, `STACK_OVERFLOW`, `SCAN_ERROR`, `FILE_ACCESS_ERROR`,
`DIRECTORY_READ_ERROR`).  The `detailedAnalysis` console text is produced
by shelling out to `find`/`ls`; it is modelled by recording which path
was analyzed.  `stackOverflow` and `scanError` arise only when the
recursive call itself throws, which the total model cannot reproduce, so
those constructors are never produced here. -/
inductive Issue where
  | deepNesting (path : List String)
  | permissionDenied (path : List String)
  | circularSymlink (path : List String) (realPath : String)
  | stackOverflow (path : List String)
  | scanError (path : List String)
  | fileAccessError (path : List String)
  | dirReadError (path : List String)
deriving DecidableEq, Repr

/-- The `diagnostics` accumulator of `scanDirectory` in `src/cli.ts`. -/
structure Diag where
  skippedPaths : List (List String)
  issues : List Issue
  detailedAnalysis : List (List String)
deriving DecidableEq, Repr

/-- The fresh accumulator built in `scanFolder`. -/
def Diag.empty : Diag := ⟨[], [], []⟩

/-- `DEEP_NESTING`: skipped path plus issue. -/
def pushDeep (g : Diag) (p : List String) : Diag :=
  { g with skippedPaths := g.skippedPaths ++ [p], issues := g.issues ++ [.deepNesting p] }

/-- `PERMISSION_DENIED` on a failed `realpath`: skipped path plus issue. -/
def pushPerm (g : Diag) (p : List String) : Diag :=
  { g with skippedPaths := g.skippedPaths ++ [p],
           issues := g.issues ++ [.permissionDenied p] }

/-- `CIRCULAR_SYMLINK`: skipped path, one issue, and the detailed analysis
of the offending directory. -/
def pushCycle (g : Diag) (p : List String) (rp : String) : Diag :=
  { g with skippedPaths := g.skippedPaths ++ [p],
           issues := g.issues ++ [.circularSymlink p rp],
           detailedAnalysis := g.detailedAnalysis ++ [p] }

/-- `DIRECTORY_READ_ERROR` on a failed `readdir`: skipped path plus issue. -/
def pushDirErr (g : Diag) (p : List String) : Diag :=
  { g with skippedPaths := g.skippedPaths ++ [p], issues := g.issues ++ [.dirReadError p] }

/-- `FILE_ACCESS_ERROR` on a failed per-file `stat`: skipped path plus issue. -/
def pushFileErr (g : Diag) (p : List String) : Diag :=
  { g with skippedPaths := g.skippedPaths ++ [p],
           issues := g.issues ++ [.fileAccessError p] }

/-! ## The diagnostic traversal engine (`scanDirectory`, `src/cli.ts`)

The engine is embedded with an explicit recursion budget (`fuel`): the
source recursion is bounded only by its own depth guard, and the theorem
`scanDirectory_total` below shows a budget of `maxDepth + 2 - depth`
is never exhausted, so the budget is an artifact of the embedding, not a
behavior.  Each recursive call receives `realPath :: visitedPaths` — the
pure-value counterpart of `new Set(visitedPaths)` taken after
`visitedPaths.add(realPath)`; the source's final
`visitedPaths.delete(realPath)` only mutates the caller's private copy
and is observationally silent.  The `try` around the recursive call
(`STACK_OVERFLOW` / `SCAN_ERROR`) is unreachable because the callee
catches all of its own failures. -/

/-- The per-directory item loop of `scanDirectory` in `src/cli.ts`:
skip symlink-flagged or symlink-named entries, skip the reserved
`metadata.csv` name, recurse into directories via `child`, and record
regular files not present in `existingFiles`, converting a failed stat
into a `FILE_ACCESS_ERROR`. -/
def processItems (fs : FS)
    (child : List String → Diag → Option (List FileMetadata × Diag))
    (dirPath : List String) (existingFiles : List (List String)) :
    List DirEntry → Diag → Option (List FileMetadata × Diag)
  | [], diagnostics => some ([], diagnostics)
  | item :: rest, diagnostics =>
    let fullPath := dirPath ++ [item.name]
    if item.isSymbolicLink || isSymlink item.name then
      processItems fs child dirPath existingFiles rest diagnostics
    else if item.name = "metadata.csv" then
      processItems fs child dirPath existingFiles rest diagnostics
    else if item.isDirectory then
      match child fullPath diagnostics with
      | none => none
      | some (subEntries, g1) =>
        match processItems fs child dirPath existingFiles rest g1 with
        | none => none
        | some (tailEntries, g2) => some (subEntries ++ tailEntries, g2)
    else if item.isFile then
      if fullPath ∈ existingFiles then
        processItems fs child dirPath existingFiles rest diagnostics
      else
        match fs.statMtime fullPath with
        | none =>
          processItems fs child dirPath existingFiles rest (pushFileErr diagnostics fullPath)
        | some mtime =>
          match processItems fs child dirPath existingFiles rest diagnostics with
          | none => none
          | some (tailEntries, g2) =>
            some ({ path := fullPath, modifiedTime := toISOString mtime } :: tailEntries, g2)
    else
      processItems fs child dirPath existingFiles rest diagnostics

/-- `scanDirectory` from `src/cli.ts`: depth guard, canonical-path
resolution, lineage cycle check, tolerant listing, then the item loop,
threading the shared diagnostics accumulator and returning the collected
records. -/
def scanDirectory (fs : FS) : Nat → List String → List (List String) → List String →
    Nat → Nat → Diag → Option (List FileMetadata × Diag)
  | 0, _, _, _, _, _, _ => none
  | fuel + 1, dirPath, existingFiles, visitedPaths, depth, maxDepth, diagnostics =>
    if maxDepth < depth then
      some ([], pushDeep diagnostics dirPath)
    else
      match fs.realpath dirPath with
      | none => some ([], pushPerm diagnostics dirPath)
      | some realPath =>
        if realPath ∈ visitedPaths then
          some ([], pushCycle diagnostics dirPath realPath)
        else
          match fs.readdir dirPath with
          | none => some ([], pushDirErr diagnostics dirPath)
          | some items =>
            processItems fs
              (fun p g => scanDirectory fs fuel p existingFiles
                (realPath :: visitedPaths) (depth + 1) maxDepth g)
              dirPath existingFiles items diagnostics

/-! ## Sorting (`allMetadata.sort((a, b) => a.path.localeCompare(b.path))`)

`localeCompare` with no locale argument is the host's default-locale
(ICU root) collation.  Modelled from the host JavaScript engine for
ASCII strings: a primary case-insensitive pass over case-folded code
points, broken by a case pass in which lowercase orders before
uppercase.  `Array.prototype.sort` is a stable sort ordered by the
comparator; it is modelled by insertion sort on the comparator's
non-`gt` relation. -/

/-- Three-way comparison of naturals. -/
def natCmp (a b : Nat) : Ordering :=
  if a < b then .lt else if a = b then .eq else .gt

/-- Lexicographic three-way comparison of lists of naturals. -/
def listCmp : List Nat → List Nat → Ordering
  | [], [] => .eq
  | [], _ :: _ => .lt
  | _ :: _, [] => .gt
  | a :: as, b :: bs =>
    match natCmp a b with
    | .eq => listCmp as bs
    | o => o

/-- Primary collation key: case-folded code points. -/
def lowerKey (s : String) : List Nat := s.data.map lowerNat

/-- Case (tertiary) collation key: lowercase before uppercase. -/
def caseKey (s : String) : List Nat :=
  s.data.map (fun c => if 65 ≤ c.toNat ∧ c.toNat ≤ 90 then 1 else 0)

/-- Model of `String.prototype.localeCompare` under the default (ICU
root) locale, restricted to ASCII: compare case-folded code points, then
break ties by case with lowercase first. -/
def localeCompare (a b : String) : Ordering :=
  match listCmp (lowerKey a) (lowerKey b) with
  | .eq => listCmp (caseKey a) (caseKey b)
  | o => o

/-- A ledger path (component list) as the string the program stores and
compares: components joined by `'/'`. -/
def joinPath (p : List String) : String := String.intercalate "/" p

/-- The sort comparator of `scanFolder`:
`(a, b) => a.path.localeCompare(b.path)` accepted as not-greater. -/
def pathLe (a b : FileMetadata) : Prop :=
  localeCompare (joinPath a.path) (joinPath b.path) ≠ .gt

instance : DecidableRel pathLe := fun a b => by
  unfold pathLe; infer_instance

/-- `allMetadata.sort(...)`: a stable sort by the `localeCompare`
comparator on paths. -/
def sortRecs (l : List FileMetadata) : List FileMetadata :=
  List.insertionSort pathLe l

/-! ## `scanFolder` (`src/cli.ts`)

`scanFolder` (after its root-validation prologue) loads the prior ledger
when `--append-only` is given, passes the existing paths to the
traversal, unions prior rows with the newly collected ones, sorts by
`localeCompare` and writes the result.  The written ledger is the
returned row list. -/
def scanFolder (fs : FS) (appendOnly : Bool) (ledger : LedgerFile) :
    Option (List FileMetadata × Diag) :=
  let existingMetadata := if appendOnly then loadExistingMetadata ledger else []
  let existingFiles := existingMetadata.map (fun r => r.path)
  (scanDirectory fs 52 [] existingFiles [] 0 50 Diag.empty).map
    (fun r => (sortRecs (existingMetadata ++ r.1), r.2))

/-! ## The legacy scanner (`src/scanner.ts`)

The older scanner shipped in `src/scanner.ts` differs from the engine in
`src/cli.ts`: it has no depth guard, no cycle check, no `metadata.csv`
exclusion and no diagnostics; its whole loop sits in one `try` whose
`catch` prints and calls `process.exit(1)`.  `Except.error ()` models
that process exit.  The fuel argument is again only an embedding bound
for the (unguarded) recursion. -/
namespace Legacy

/-- The per-directory item loop of `scanDirectory` in `src/scanner.ts`. -/
def scanItems (fs : FS) (child : List String → Option (Except Unit (List FileMetadata)))
    (dirPath : List String) (existingFiles : List (List String)) :
    List DirEntry → Option (Except Unit (List FileMetadata))
  | [] => some (.ok [])
  | item :: rest =>
    let fullPath := dirPath ++ [item.name]
    if item.isSymbolicLink || isSymlink item.name then
      scanItems fs child dirPath existingFiles rest
    else if item.isDirectory then
      match child fullPath with
      | none => none
      | some (.error e) => some (.error e)
      | some (.ok subEntries) =>
        match scanItems fs child dirPath existingFiles rest with
        | none => none
        | some (.error e) => some (.error e)
        | some (.ok tailEntries) => some (.ok (subEntries ++ tailEntries))
    else if item.isFile then
      if fullPath ∈ existingFiles then
        scanItems fs child dirPath existingFiles rest
      else
        match fs.statMtime fullPath with
        | none => some (.error ())
        | some mtime =>
          match scanItems fs child dirPath existingFiles rest with
          | none => none
          | some (.error e) => some (.error e)
          | some (.ok tailEntries) =>
            some (.ok ({ path := fullPath, modifiedTime := toISOString mtime } :: tailEntries))
    else
      scanItems fs child dirPath existingFiles rest

/-- `scanDirectory` from `src/scanner.ts`: list the directory and walk
its entries; any directory-listing or stat failure reaches the single
`catch`, which terminates the process (`Except.error ()`). -/
def scanDirectory (fs : FS) : Nat → List String → List (List String) →
    Option (Except Unit (List FileMetadata))
  | 0, _, _ => none
  | fuel + 1, dirPath, existingFiles =>
    match fs.readdir dirPath with
    | none => some (.error ())
    | some items =>
      scanItems fs (fun p => scanDirectory fs fuel p existingFiles) dirPath existingFiles items

/-- `scanFolder` from `src/scanner.ts` (after root validation): optional
append-only merge, then the same `localeCompare` sort. -/
def scanFolder (fs : FS) (appendOnly : Bool) (ledger : LedgerFile) (fuel : Nat) :
    Option (Except Unit (List FileMetadata)) :=
  let existingMetadata := if appendOnly then loadExistingMetadata ledger else []
  let existingFiles := existingMetadata.map (fun r => r.path)
  (scanDirectory fs fuel [] existingFiles).map
    (Except.map (fun newMetadata => sortRecs (existingMetadata ++ newMetadata)))

end Legacy

/-! ## The restore engine (`restoreTimestamps`, `setFileTimestamps`, `src/info.ts`)

The extracted tree is modelled by a `RestoreFS`: the state of the ledger
file, whether `fs.access` succeeds per target, whether `fs.utimes`
succeeds per target, the current mtime map, and the platform flag
(`process.platform === 'darwin'`).  `exited` in the outcome is the
`process.exit(1)` of the outer catch in `restoreTimestamps`.  That catch
is reachable: `loadMetadata` resolves with `[]` when reading or parsing
the CSV throws, but a file that parses cleanly under `columns: true`
while its header lacks a `path` column yields records whose `path`
property is `undefined`; the loop header then evaluates
`join(extractedFolderPath, entry.path)` *outside* the per-entry `try`,
`join` throws a `TypeError` on `undefined`, and control lands in the
outer catch, which calls `process.exit(1)`. -/

/-- A parsed CSV record as `csv-parse` (`columns: true`) hands it to the
restore loop: the `path` property is `none` when the header had no
`path` column (the JavaScript value `undefined`).  A missing
`modifiedTime` behaves like any unparsable timestamp string, so it needs
no separate representation. -/
structure CsvRow where
  path : Option (List String)
  modifiedTime : String
deriving DecidableEq, Repr

/-- State of the `metadata.csv` read by the restore side: absent file,
contents on which `parse` throws, or a clean parse into rows. -/
inductive RestoreLedger where
  | absent
  | corrupt
  | ok (rows : List CsvRow)
deriving DecidableEq, Repr

/-- `loadMetadata` from `src/scanner.ts` (via `loadExistingMetadata`) as
the restore engine sees it: read and CSV-parse failures are swallowed
into `[]` by the catch; a clean parse returns its records, whose `path`
property may be `undefined`. -/
def loadMetadata : RestoreLedger → List CsvRow
  | .absent => []
  | .corrupt => []
  | .ok rows => rows

/-- A well-formed ledger row — the `path` column present — as every row
written by a scan is. -/
def fileRow (r : FileMetadata) : CsvRow :=
  { path := some r.path, modifiedTime := r.modifiedTime }

/-- The extracted tree and platform as seen by the restore engine. -/
structure RestoreFS where
  ledger : RestoreLedger
  access : List String → Bool
  utimesOk : List String → Bool
  mtimes : List String → Option Int
  darwin : Bool

/-- Result of a restore run: counters, the no-op warning for an empty
ledger, the per-path warnings, whether the outer catch's
`process.exit(1)` was reached, and the final mtime map. -/
structure RestoreOutcome where
  restoredCount : Nat
  errorCount : Nat
  emptyWarn : Bool
  missingPaths : List (List String)
  timestampWarns : List (List String)
  exited : Bool
  mtimes : List String → Option Int

/-- Intermediate loop state of `restoreTimestamps`. -/
structure RestoreState where
  restoredCount : Nat
  errorCount : Nat
  mtimes : List String → Option Int
  timestampWarns : List (List String)
  missingPaths : List (List String)

/-- `setFileTimestamps` from `src/info.ts`: `fs.utimes(filePath, t, t)`
inside a `try` whose `catch` only logs a warning — an Invalid Date
(`none`) or a failing `utimes` therefore warns and leaves the file
untouched, and the function always returns normally.  On darwin the
source additionally runs `touch -t YYYYMMDDHHMM.SS`, which rewrites
atime/mtime at second precision from the timestamp's local-time
components; with the process timezone fixed (modelled as UTC) that
truncates the just-set mtime to whole seconds.  The returned flag is
whether the catch's warning was logged. -/
def setFileTimestamps (darwin : Bool) (utimesOk : Bool)
    (mtimes : List String → Option Int) (filePath : List String)
    (timestamp : Option Int) : (List String → Option Int) × Bool :=
  match timestamp with
  | none => (mtimes, true)
  | some t =>
    if utimesOk then
      if darwin then
        (fun q => if q = filePath then some (t / 1000 * 1000) else mtimes q, false)
      else
        (fun q => if q = filePath then some t else mtimes q, false)
    else (mtimes, true)

/-- One iteration of the `for (const entry of metadata)` loop in
`restoreTimestamps`: a failing `fs.access` is the only throw the
per-entry catch can see (warn, `errorCount++`); otherwise the stored
string is parsed with `fromISOString`, `setFileTimestamps` is applied,
and `restoredCount++` runs unconditionally. -/
def restoreStep (darwin : Bool) (access utimesOk : List String → Bool)
    (st : RestoreState) (entry : FileMetadata) : RestoreState :=
  if access entry.path then
    let timestamp := fromISOString entry.modifiedTime
    let r := setFileTimestamps darwin (utimesOk entry.path) st.mtimes entry.path timestamp
    { st with
        restoredCount := st.restoredCount + 1
        mtimes := r.1
        timestampWarns :=
          if r.2 then st.timestampWarns ++ [entry.path] else st.timestampWarns }
  else
    { st with
        errorCount := st.errorCount + 1
        missingPaths := st.missingPaths ++ [entry.path] }

/-- The `for (const entry of metadata)` loop of `restoreTimestamps`.
Each iteration first computes `join(extractedFolderPath, entry.path)`
*outside* the per-entry `try`: when `entry.path` is `undefined` that
`join` throws, no further row is processed, and the exception reaches
the outer catch — the `true` flag.  Otherwise the iteration body runs as
`restoreStep` and the loop continues. -/
def restoreLoop (darwin : Bool) (access utimesOk : List String → Bool) :
    RestoreState → List CsvRow → RestoreState × Bool
  | st, [] => (st, false)
  | st, row :: rest =>
    match row.path with
    | none => (st, true)
    | some p =>
      restoreLoop darwin access utimesOk
        (restoreStep darwin access utimesOk st { path := p, modifiedTime := row.modifiedTime })
        rest

/-- `restoreTimestamps` from `src/info.ts`: load the ledger through the
tolerant loader, warn and return on an empty row list, otherwise walk the
rows accumulating counts, warnings and mtime updates; a row whose `path`
column is absent makes the loop header's `join` throw outside the
per-entry `try`, reaching the outer catch's `process.exit(1)` (`exited`).
On that path the outcome records the state at the moment of exit. -/
def restoreTimestamps (fs : RestoreFS) : RestoreOutcome :=
  let metadata := loadMetadata fs.ledger
  if metadata.length = 0 then
    { restoredCount := 0, errorCount := 0, emptyWarn := true, missingPaths := [],
      timestampWarns := [], exited := false, mtimes := fs.mtimes }
  else
    let r := restoreLoop fs.darwin fs.access fs.utimesOk
      { restoredCount := 0, errorCount := 0, mtimes := fs.mtimes,
        timestampWarns := [], missingPaths := [] } metadata
    { restoredCount := r.1.restoredCount, errorCount := r.1.errorCount,
      emptyWarn := false, missingPaths := r.1.missingPaths,
      timestampWarns := r.1.timestampWarns, exited := r.2, mtimes := r.1.mtimes }

/-- Invariant of every record a scan produces: its path was not among the
skip paths (those are never re-stat'd, so never re-recorded) and its last
component is not the reserved ledger name. -/
def RecOk (existingFiles : List (List String)) (r : FileMetadata) : Prop :=
  r.path ∉ existingFiles ∧ r.path.getLast? ≠ some "metadata.csv"

/-- A filesystem describing an infinite tree: every directory contains a
subdirectory `a`, with distinct canonical paths (no cycles). -/
def loopFS : FS where
  realpath := fun p => some (joinPath ("root" :: p))
  readdir := fun _ => some [⟨"a", false, true, false⟩]
  statMtime := fun _ => none

/-- Two independent sibling branches (`a/c` and `b/c`) whose inner
directories resolve to the same canonical path `SHARED`, each holding one
file. -/
def twinFS : FS where
  realpath := fun p =>
    if p = [] then some "R"
    else if p = ["a"] then some "RA"
    else if p = ["b"] then some "RB"
    else if p = ["a", "c"] then some "SHARED"
    else if p = ["b", "c"] then some "SHARED"
    else none
  readdir := fun p =>
    if p = [] then some [⟨"a", false, true, false⟩, ⟨"b", false, true, false⟩]
    else if p = ["a"] then some [⟨"c", false, true, false⟩]
    else if p = ["b"] then some [⟨"c", false, true, false⟩]
    else if p = ["a", "c"] then some [⟨"f.txt", false, false, true⟩]
    else if p = ["b", "c"] then some [⟨"g.txt", false, false, true⟩]
    else none
  statMtime := fun p =>
    if p = ["a", "c", "f.txt"] then some 0
    else if p = ["b", "c", "g.txt"] then some 5
    else none

/-- A directory whose child `loop` resolves back to the root's canonical
path, as a symlink loop would. -/
def cycleFS : FS where
  realpath := fun p =>
    if p = [] then some "R"
    else if p = ["loop"] then some "R"
    else none
  readdir := fun p =>
    if p = [] then some [⟨"loop", false, true, false⟩]
    else none
  statMtime := fun _ => none

/-- A tree whose subdirectory `bad` fails `readdir`, next to a healthy
sibling file `ok.txt`. -/
def badDirFS : FS where
  realpath := fun p => some (joinPath ("root" :: p))
  readdir := fun p =>
    if p = [] then some [⟨"bad", false, true, false⟩, ⟨"ok.txt", false, false, true⟩]
    else none
  statMtime := fun p => if p = ["ok.txt"] then some 7 else none

instance : DecidableEq (Except Unit (List FileMetadata)) := fun a b =>
  match a, b with
  | .ok x, .ok y =>
    if h : x = y then isTrue (by rw [h]) else isFalse (fun hc => by cases hc; exact h rfl)
  | .error x, .error y => isTrue (by cases x; cases y; rfl)
  | .ok _, .error _ => isFalse (fun hc => by cases hc)
  | .error _, .ok _ => isFalse (fun hc => by cases hc)

/-- A tree holding one regular file (link-type bit clear) whose name
merely looks symlink-like. -/
def lnkFS : FS where
  realpath := fun p => some (joinPath ("root" :: p))
  readdir := fun p => if p = [] then some [⟨"a.lnk", false, false, true⟩] else none
  statMtime := fun p => if p = ["a.lnk"] then some 0 else none

/-- A tree with two regular files whose byte order and locale order
disagree: `B.txt` (0x42…) and `a.txt` (0x61…). -/
def caseFS : FS where
  realpath := fun p => some (joinPath ("root" :: p))
  readdir := fun p =>
    if p = [] then some [⟨"B.txt", false, false, true⟩, ⟨"a.txt", false, false, true⟩]
    else none
  statMtime := fun p =>
    if p = ["B.txt"] then some 0 else if p = ["a.txt"] then some 1 else none

/-- Byte-lexicographic (code-point) strict order on strings, the order the
spec claims the ledger rows are sorted by. -/
def byteLexLt : List Char → List Char → Bool
  | [], [] => false
  | [], _ :: _ => true
  | _ :: _, [] => false
  | a :: as, b :: bs =>
    if a.toNat < b.toNat then true
    else if b.toNat < a.toNat then false
    else byteLexLt as bs

/-- A tree that contains a regular file literally named `metadata.csv`
next to an ordinary file. -/
def metaFS : FS where
  realpath := fun p => some (joinPath ("root" :: p))
  readdir := fun p =>
    if p = [] then some [⟨"metadata.csv", false, false, true⟩, ⟨"a.txt", false, false, true⟩]
    else none
  statMtime := fun p =>
    if p = ["metadata.csv"] then some 3 else if p = ["a.txt"] then some 4 else none

/-- A prior-ledger row whose stored timestamp (123 ms) deliberately
differs from every on-disk mtime in the trees below. -/
def priorRec : FileMetadata := ⟨["old.txt"], "1970-01-01T00:00:00.123Z"⟩

/-- A tree where the previously recorded `old.txt` still exists (with a
changed on-disk mtime) next to a newly added `new.txt`. -/
def c7fs : FS where
  realpath := fun p => some (joinPath ("root" :: p))
  readdir := fun p =>
    if p = [] then some [⟨"old.txt", false, false, true⟩, ⟨"new.txt", false, false, true⟩]
    else none
  statMtime := fun p =>
    if p = ["new.txt"] then some 5 else if p = ["old.txt"] then some 9 else none

/-- `c7fs` with a different on-disk mtime for the already-recorded
`old.txt`; identical everywhere else. -/
def c7fs2 : FS where
  realpath := c7fs.realpath
  readdir := c7fs.readdir
  statMtime := fun p =>
    if p = ["new.txt"] then some 5 else if p = ["old.txt"] then some 777 else none

/-- The same tree after `old.txt` was deleted from disk. -/
def removedFS : FS where
  realpath := fun p => some (joinPath ("root" :: p))
  readdir := fun p =>
    if p = [] then some [⟨"new.txt", false, false, true⟩] else none
  statMtime := fun p => if p = ["new.txt"] then some 5 else none

/-- The restore side of the round trip for one scanned file: a ledger
holding the single record `a.txt` with the scan-time mtime `t` serialized
by `toISOString`, an extracted tree where the target exists and `utimes`
succeeds, on the given platform. -/
def c1fs (t : Int) (darwin : Bool) : RestoreFS :=
  { ledger := .ok [⟨some ["a.txt"], toISOString t⟩]
    access := fun _ => true
    utimesOk := fun _ => true
    mtimes := fun _ => none
    darwin := darwin }

/-! ### Round-trip lemmas for the ISO wire format -/

/-- `yearOfDay` is the year whose day range contains `n`. -/
theorem yearOfDay_spec (n : Nat) :
    daysToYearStart (yearOfDay n) ≤ n ∧ n < daysToYearStart (yearOfDay n + 1) := by
  have e1 : yearOfDay n =
      (if n < daysToYearStart (400 * n / 146097) then 400 * n / 146097 - 1
       else if n < daysToYearStart (400 * n / 146097 + 1) then 400 * n / 146097
       else 400 * n / 146097 + 1) := rfl
  rcases Nat.lt_or_ge n (daysToYearStart (400 * n / 146097)) with h1 | h1
  · rcases Nat.eq_zero_or_pos (400 * n / 146097) with hG | hG
    · rw [hG] at h1
      unfold daysToYearStart leapsBefore at h1
      omega
    · have hq : 400 * n / 146097 - 1 + 1 = 400 * n / 146097 := by omega
      rw [e1, if_pos h1, hq]
      unfold daysToYearStart leapsBefore at h1 ⊢
      omega
  · rcases Nat.lt_or_ge n (daysToYearStart (400 * n / 146097 + 1)) with h2 | h2
    · rw [e1, if_neg (Nat.not_lt.mpr h1), if_pos h2]
      unfold daysToYearStart leapsBefore at h1 h2 ⊢
      omega
    · rw [e1, if_neg (Nat.not_lt.mpr h1), if_neg (Nat.not_lt.mpr h2)]
      unfold daysToYearStart leapsBefore at h1 h2 ⊢
      omega

/-- `daysToYearStart` is monotone. -/
theorem daysToYearStart_mono {y z : Nat} (h : y ≤ z) :
    daysToYearStart y ≤ daysToYearStart z := by
  unfold daysToYearStart leapsBefore
  omega

/-- Year lengths: 366 days in a leap year, 365 otherwise. -/
theorem daysToYearStart_succ (y : Nat) :
    daysToYearStart (y + 1) =
      daysToYearStart y + (if isLeapYear y then 366 else 365) := by
  unfold daysToYearStart leapsBefore isLeapYear
  split <;> rename_i hB <;>
    simp only [Bool.or_eq_true, Bool.and_eq_true, beq_iff_eq, bne_iff_ne,
      Bool.or_eq_false_iff, Bool.and_eq_false_iff, beq_eq_false_iff_ne,
      bne_eq_false_iff_eq, ne_eq] at hB <;> omega

set_option maxRecDepth 4000 in
/-- `monthOfYearDay` names the month whose day range contains `doy`. -/
theorem monthOfYearDay_spec : ∀ (leap : Bool) (doy : Nat), doy < 366 →
    (doy < (if leap then 366 else 365)) →
    1 ≤ monthOfYearDay leap doy ∧ monthOfYearDay leap doy ≤ 12 ∧
    daysBeforeMonth leap (monthOfYearDay leap doy) ≤ doy ∧
    doy < daysBeforeMonth leap (monthOfYearDay leap doy) +
      daysInMonth leap (monthOfYearDay leap doy) := by
  decide

/-- Digit characters round-trip through `digVal`. -/
theorem digVal_digitChar : ∀ d : Nat, d < 10 →
    digVal (digitChar d) = d ∧ isDig (digitChar d) := by
  decide

/-- `digVal` recovers the digit behind `digitChar` (mod-10 form). -/
theorem digVal_digitChar_mod (k : Nat) : digVal (digitChar (k % 10)) = k % 10 :=
  (digVal_digitChar _ (Nat.mod_lt _ (by norm_num))).1

/-- `digitChar` of a mod-10 value is a digit character. -/
theorem isDig_digitChar_mod (k : Nat) : isDig (digitChar (k % 10)) :=
  (digVal_digitChar _ (Nat.mod_lt _ (by norm_num))).2

/-- On a 24-character list with the ISO separators in place, `parseIsoChars`
is the 24-character parser. -/
theorem parseIsoChars_cons24
    (c1 c2 c3 c4 c6 c7 c9 c10 c12 c13 c15 c16 c18 c19 c21 c22 c23 : Char) :
    parseIsoChars [c1, c2, c3, c4, '-', c6, c7, '-', c9, c10, 'T',
      c12, c13, ':', c15, c16, ':', c18, c19, '.', c21, c22, c23, 'Z'] =
    parseIso24 [c1, c2, c3, c4, '-', c6, c7, '-', c9, c10, 'T',
      c12, c13, ':', c15, c16, ':', c18, c19, '.', c21, c22, c23, 'Z'] := rfl

/-- Parsing the formatted character list recovers `mkInstant` on the
formatted components. -/
theorem parseIso_isoChars (y m d hh mi ss ms : Nat)
    (hy1 : 2000000 ≤ y) (hy2 : y < 2010000) (hm : m < 100) (hd : d < 100)
    (hhh : hh < 100) (hmi : mi < 100) (hss : ss < 100) (hms : ms < 1000) :
    parseIsoChars (isoChars y m d hh mi ss ms) =
      mkInstant ((y : Int) - 2000000) m d hh mi ss ms := by
  have hdp : isoChars y m d hh mi ss ms =
      [digitChar ((y - 2000000) / 1000 % 10), digitChar ((y - 2000000) / 100 % 10),
       digitChar ((y - 2000000) / 10 % 10), digitChar ((y - 2000000) % 10), '-',
       digitChar (m / 10 % 10), digitChar (m % 10), '-',
       digitChar (d / 10 % 10), digitChar (d % 10), 'T',
       digitChar (hh / 10 % 10), digitChar (hh % 10), ':',
       digitChar (mi / 10 % 10), digitChar (mi % 10), ':',
       digitChar (ss / 10 % 10), digitChar (ss % 10), '.',
       digitChar (ms / 100 % 10), digitChar (ms / 10 % 10), digitChar (ms % 10), 'Z'] := by
    simp only [isoChars, pad2, pad3, pad4]
    rw [if_pos ⟨hy1, hy2⟩]
    simp
  rw [hdp, parseIsoChars_cons24]
  simp only [parseIso24]
  rw [if_pos]
  · simp only [digVal_digitChar_mod]
    have e1 : (y - 2000000) / 1000 % 10 * 1000 + (y - 2000000) / 100 % 10 * 100 +
        (y - 2000000) / 10 % 10 * 10 + (y - 2000000) % 10 = y - 2000000 := by omega
    have e2 : m / 10 % 10 * 10 + m % 10 = m := by omega
    have e3 : d / 10 % 10 * 10 + d % 10 = d := by omega
    have e4 : hh / 10 % 10 * 10 + hh % 10 = hh := by omega
    have e5 : mi / 10 % 10 * 10 + mi % 10 = mi := by omega
    have e6 : ss / 10 % 10 * 10 + ss % 10 = ss := by omega
    have e7 : ms / 100 % 10 * 100 + ms / 10 % 10 * 10 + ms % 10 = ms := by omega
    rw [e1, e2, e3, e4, e5, e6, e7, Nat.cast_sub hy1]
    norm_num
  · simp [isDig_digitChar_mod]

/-- Month lengths never exceed 31 days. -/
theorem daysInMonth_le31 : ∀ (leap : Bool) (m : Nat), m < 13 → daysInMonth leap m ≤ 31 := by
  decide

/-- Formatting a day number and millisecond-of-day and parsing the result
recovers the underlying time value. -/
theorem parse_format_day (n msod : Nat) (hn1 : 730485000 ≤ n) (hn2 : n < 734137425)
    (hms : msod < 86400000) :
    parseIsoChars (isoChars (civilOfDay n).1 (civilOfDay n).2.1 (civilOfDay n).2.2
        (msod / 3600000) (msod / 60000 % 60) (msod / 1000 % 60) (msod % 1000)) =
      some (((n : Int) - 731204528) * 86400000 + (msod : Int)) := by
  obtain ⟨hy1, hy2⟩ := yearOfDay_spec n
  have hsucc := daysToYearStart_succ (yearOfDay n)
  have hylb : 2000000 ≤ yearOfDay n := by
    rcases Nat.lt_or_ge (yearOfDay n) 2000000 with hc | hc
    · have h4 := daysToYearStart_mono (show yearOfDay n + 1 ≤ 2000000 from hc)
      have hv : daysToYearStart 2000000 = 730485000 := by
        norm_num [daysToYearStart, leapsBefore]
      omega
    · exact hc
  have hyub : yearOfDay n < 2010000 := by
    rcases Nat.lt_or_ge (yearOfDay n) 2010000 with hc | hc
    · exact hc
    · have h4 := daysToYearStart_mono hc
      have hv : daysToYearStart 2010000 = 734137425 := by
        norm_num [daysToYearStart, leapsBefore]
      omega
  have hdoyA : n - daysToYearStart (yearOfDay n) < 366 := by
    split at hsucc <;> omega
  have hdoyB : n - daysToYearStart (yearOfDay n) <
      (if isLeapYear (yearOfDay n) then 366 else 365) := by
    split at hsucc <;> (simp_all; try omega)
  obtain ⟨hm1, hm12, hdbm, hdim⟩ := monthOfYearDay_spec _ _ hdoyA hdoyB
  have hciv : civilOfDay n = (yearOfDay n,
      monthOfYearDay (isLeapYear (yearOfDay n)) (n - daysToYearStart (yearOfDay n)),
      n - daysToYearStart (yearOfDay n) -
        daysBeforeMonth (isLeapYear (yearOfDay n))
          (monthOfYearDay (isLeapYear (yearOfDay n)) (n - daysToYearStart (yearOfDay n))) + 1)
      := rfl
  rw [hciv]
  set y := yearOfDay n with hydef
  set doy := n - daysToYearStart y with hdoydef
  set m := monthOfYearDay (isLeapYear y) doy with hmdef
  set d := doy - daysBeforeMonth (isLeapYear y) m + 1 with hdddef
  have hdimle : daysInMonth (isLeapYear y) m ≤ 31 := daysInMonth_le31 _ _ (by omega)
  rw [parseIso_isoChars y m d (msod / 3600000) (msod / 60000 % 60) (msod / 1000 % 60)
    (msod % 1000) hylb hyub (by omega) (by omega) (by omega) (by omega) (by omega) (by omega)]
  simp only [mkInstant]
  rw [if_pos ⟨by omega, hm1, hm12, by omega, by omega, by omega, by omega⟩]
  have hYback : ((y : Int) - 2000000 + 2000000).toNat = y := by omega
  rw [hYback]
  rw [if_pos (show d ≤ daysInMonth (isLeapYear y) m by omega)]
  rw [if_pos (by omega)]
  congr 1
  have hday : daysToYearStart y + daysBeforeMonth (isLeapYear y) m + (d - 1) = n := by
    omega
  rw [hday]
  omega

/-- The ledger wire format round-trips: serializing any representable
time value with `toISOString` and parsing it back with `fromISOString`
yields the identical instant.  The hypotheses restrict `t` to calendar
years 0-9999, the simple (non-expanded) ISO format. -/
theorem fromISOString_toISOString (t : Int)
    (ht1 : -62167219200000 ≤ t) (ht2 : t < 253402300800000) :
    fromISOString (toISOString t) = some t := by
  have hdm : 86400000 * (t / 86400000) + t % 86400000 = t := Int.ediv_add_emod t 86400000
  have hr0 : 0 ≤ t % 86400000 := Int.emod_nonneg t (by norm_num)
  have hrlt : t % 86400000 < 86400000 := Int.emod_lt_of_pos t (by norm_num)
  have hn0 : (0 : Int) ≤ t / 86400000 + 731204528 := by omega
  have hnval : ((t / 86400000 + 731204528).toNat : Int) = t / 86400000 + 731204528 :=
    Int.toNat_of_nonneg hn0
  have hmsodval : ((t % 86400000).toNat : Int) = t % 86400000 := Int.toNat_of_nonneg hr0
  have hstep : fromISOString (toISOString t) =
      parseIsoChars (isoChars
        (civilOfDay (t / 86400000 + 731204528).toNat).1
        (civilOfDay (t / 86400000 + 731204528).toNat).2.1
        (civilOfDay (t / 86400000 + 731204528).toNat).2.2
        ((t % 86400000).toNat / 3600000) ((t % 86400000).toNat / 60000 % 60)
        ((t % 86400000).toNat / 1000 % 60) ((t % 86400000).toNat % 1000)) := rfl
  rw [hstep, parse_format_day _ _ (by omega) (by omega) (by omega)]
  congr 1
  omega

/-! ### Order facts about the `localeCompare` model -/

/-- Characters with equal code points are equal. -/
theorem char_eq_of_toNat_eq {c1 c2 : Char} (h : c1.toNat = c2.toNat) : c1 = c2 :=
  Char.ext (UInt32.ext h)

/-- `natCmp` answers `eq` exactly on equal arguments. -/
theorem natCmp_eq_iff (a b : Nat) : natCmp a b = .eq ↔ a = b := by
  unfold natCmp
  split
  · constructor
    · intro h; cases h
    · omega
  · split
    · simp_all
    · constructor
      · intro h; cases h
      · omega

/-- `natCmp` is antisymmetric under `Ordering.swap`. -/
theorem natCmp_swap (a b : Nat) : natCmp b a = (natCmp a b).swap := by
  unfold natCmp
  repeat' split
  all_goals first | rfl | omega

/-- `natCmp` answers `lt` exactly when the first argument is smaller. -/
theorem natCmp_lt_iff (a b : Nat) : natCmp a b = .lt ↔ a < b := by
  unfold natCmp
  repeat' split
  all_goals simp_all

/-- `natCmp` strict comparisons compose. -/
theorem natCmp_lt_trans {a b c : Nat} (h1 : natCmp a b = .lt) (h2 : natCmp b c = .lt) :
    natCmp a c = .lt := by
  rw [natCmp_lt_iff] at *
  omega

/-- `listCmp` answers `eq` exactly on equal lists. -/
theorem listCmp_eq_iff : ∀ l1 l2 : List Nat, listCmp l1 l2 = .eq ↔ l1 = l2 := by
  intro l1
  induction l1 with
  | nil => intro l2; cases l2 <;> simp [listCmp]
  | cons a as ih =>
    intro l2
    cases l2 with
    | nil => simp [listCmp]
    | cons b bs =>
      simp only [listCmp]
      cases hab : natCmp a b with
      | eq =>
        have hab' : a = b := (natCmp_eq_iff a b).mp hab
        simp [hab', ih bs]
      | lt =>
        have : ¬ a = b := by
          intro hc; rw [hc] at hab; rw [(natCmp_eq_iff b b).mpr rfl] at hab; cases hab
        simp [this]
      | gt =>
        have : ¬ a = b := by
          intro hc; rw [hc] at hab; rw [(natCmp_eq_iff b b).mpr rfl] at hab; cases hab
        simp [this]

/-- `listCmp` is antisymmetric under `Ordering.swap`. -/
theorem listCmp_swap : ∀ l1 l2 : List Nat, listCmp l2 l1 = (listCmp l1 l2).swap := by
  intro l1
  induction l1 with
  | nil => intro l2; cases l2 <;> simp [listCmp, Ordering.swap]
  | cons a as ih =>
    intro l2
    cases l2 with
    | nil => simp [listCmp, Ordering.swap]
    | cons b bs =>
      simp only [listCmp, natCmp_swap a b]
      cases natCmp a b <;> simp [Ordering.swap, ih bs]

/-- `listCmp` strict comparisons compose. -/
theorem listCmp_lt_trans : ∀ {l1 l2 l3 : List Nat}, listCmp l1 l2 = .lt →
    listCmp l2 l3 = .lt → listCmp l1 l3 = .lt := by
  intro l1
  induction l1 with
  | nil =>
    intro l2 l3 h1 h2
    cases l2 with
    | nil => exact h2
    | cons b bs => cases l3 with
      | nil => cases h2
      | cons c cs => rfl
  | cons a as ih =>
    intro l2 l3 h1 h2
    cases l2 with
    | nil => cases h1
    | cons b bs =>
      cases l3 with
      | nil => cases h2
      | cons c cs =>
        simp only [listCmp] at h1 h2 ⊢
        cases hab : natCmp a b with
        | gt => rw [hab] at h1; cases h1
        | lt =>
          rw [hab] at h1
          cases hbc : natCmp b c with
          | gt => rw [hbc] at h2; cases h2
          | lt => rw [natCmp_lt_trans hab hbc]
          | eq =>
            have : b = c := (natCmp_eq_iff b c).mp hbc
            subst this
            rw [hab]
        | eq =>
          rw [hab] at h1
          have : a = b := (natCmp_eq_iff a b).mp hab
          subst this
          cases hbc : natCmp a c with
          | gt => rw [hbc] at h2; cases h2
          | lt => rfl
          | eq =>
            rw [hbc] at h2
            exact ih h1 h2

/-- `localeCompare` is antisymmetric under `Ordering.swap`. -/
theorem localeCompare_swap (a b : String) :
    localeCompare b a = (localeCompare a b).swap := by
  unfold localeCompare
  rw [listCmp_swap (lowerKey a) (lowerKey b), listCmp_swap (caseKey a) (caseKey b)]
  cases listCmp (lowerKey a) (lowerKey b) <;> simp [Ordering.swap]

/-- Characters with equal case-folded code point and equal case rank are
equal. -/
theorem char_eq_of_lower_case_eq {c1 c2 : Char} (h1 : lowerNat c1 = lowerNat c2)
    (h2 : (if 65 ≤ c1.toNat ∧ c1.toNat ≤ 90 then (1 : Nat) else 0) =
          (if 65 ≤ c2.toNat ∧ c2.toNat ≤ 90 then (1 : Nat) else 0)) : c1 = c2 := by
  apply char_eq_of_toNat_eq
  unfold lowerNat at h1
  rcases Classical.em (65 ≤ c1.toNat ∧ c1.toNat ≤ 90) with ha | ha <;>
    rcases Classical.em (65 ≤ c2.toNat ∧ c2.toNat ≤ 90) with hb | hb
  · rw [if_pos ha, if_pos hb] at h1
    omega
  · rw [if_pos ha, if_neg hb] at h2
    omega
  · rw [if_neg ha, if_pos hb] at h2
    omega
  · rw [if_neg ha, if_neg hb] at h1
    exact h1

/-- Character lists with equal case-fold and case-rank images are equal. -/
theorem chars_eq_of_keys_eq : ∀ l1 l2 : List Char,
    l1.map lowerNat = l2.map lowerNat →
    l1.map (fun c => if 65 ≤ c.toNat ∧ c.toNat ≤ 90 then (1 : Nat) else 0) =
      l2.map (fun c => if 65 ≤ c.toNat ∧ c.toNat ≤ 90 then (1 : Nat) else 0) →
    l1 = l2 := by
  intro l1
  induction l1 with
  | nil => intro l2 h1 _; cases l2 <;> simp_all
  | cons c cs ih =>
    intro l2 h1 h2
    cases l2 with
    | nil => simp_all
    | cons d ds =>
      simp only [List.map_cons, List.cons.injEq] at h1 h2
      have := char_eq_of_lower_case_eq h1.1 h2.1
      rw [this, ih ds h1.2 h2.2]

/-- Strings with an `eq` comparison are equal. -/
theorem localeCompare_eq_strings {a b : String} (h : localeCompare a b = .eq) :
    a = b := by
  unfold localeCompare at h
  cases hab : listCmp (lowerKey a) (lowerKey b) with
  | lt => rw [hab] at h; cases h
  | gt => rw [hab] at h; cases h
  | eq =>
    rw [hab] at h
    have h1 : lowerKey a = lowerKey b := (listCmp_eq_iff _ _).mp hab
    have h2 : caseKey a = caseKey b := (listCmp_eq_iff _ _).mp h
    unfold lowerKey at h1
    unfold caseKey at h2
    have := chars_eq_of_keys_eq a.data b.data h1 h2
    exact congrArg String.mk this

/-- Non-`gt` comparisons compose. -/
theorem localeCompare_le_trans {a b c : String} (h1 : localeCompare a b ≠ .gt)
    (h2 : localeCompare b c ≠ .gt) : localeCompare a c ≠ .gt := by
  unfold localeCompare at *
  cases hab : listCmp (lowerKey a) (lowerKey b) with
  | gt => rw [hab] at h1; exact absurd rfl h1
  | lt =>
    cases hbc : listCmp (lowerKey b) (lowerKey c) with
    | gt => rw [hbc] at h2; exact absurd rfl h2
    | lt => rw [listCmp_lt_trans hab hbc]; simp
    | eq =>
      have he : lowerKey b = lowerKey c := (listCmp_eq_iff _ _).mp hbc
      rw [← he, hab]
      simp
  | eq =>
    have he : lowerKey a = lowerKey b := (listCmp_eq_iff _ _).mp hab
    rw [hab] at h1
    simp only at h1
    cases hbc : listCmp (lowerKey b) (lowerKey c) with
    | gt => rw [hbc] at h2; exact absurd rfl h2
    | lt =>
      rw [he, hbc]
      simp
    | eq =>
      rw [hbc] at h2
      simp only at h2
      rw [he, hbc]
      simp only
      cases hab2 : listCmp (caseKey a) (caseKey b) with
      | gt => rw [hab2] at h1; exact absurd rfl h1
      | lt =>
        cases hbc2 : listCmp (caseKey b) (caseKey c) with
        | gt => rw [hbc2] at h2; exact absurd rfl h2
        | lt => rw [listCmp_lt_trans hab2 hbc2]; simp
        | eq =>
          have hk : caseKey b = caseKey c := (listCmp_eq_iff _ _).mp hbc2
          rw [← hk, hab2]
          simp
      | eq =>
        have hk : caseKey a = caseKey b := (listCmp_eq_iff _ _).mp hab2
        rw [hk]
        exact h2

instance : IsTotal FileMetadata pathLe := by
  constructor
  intro a b
  unfold pathLe
  have hsw := localeCompare_swap (joinPath a.path) (joinPath b.path)
  cases h : localeCompare (joinPath a.path) (joinPath b.path) <;> rw [h] at hsw <;>
    simp_all [Ordering.swap]

instance : IsTrans FileMetadata pathLe := by
  constructor
  intro a b c h1 h2
  exact localeCompare_le_trans h1 h2

/-- `sortRecs` output is sorted by the comparator. -/
theorem sortRecs_sorted (l : List FileMetadata) : List.Sorted pathLe (sortRecs l) :=
  List.sorted_insertionSort pathLe l

/-- `sortRecs` permutes its input. -/
theorem sortRecs_perm (l : List FileMetadata) : (sortRecs l).Perm l :=
  List.perm_insertionSort pathLe l

/-- Two sorted permutations of a duplicate-free (by path string) record
list coincide. -/
theorem sorted_perm_unique : ∀ l1 l2 : List FileMetadata, l1.Perm l2 →
    l1.Sorted pathLe → l2.Sorted pathLe →
    l1.Pairwise (fun x y => joinPath x.path ≠ joinPath y.path) → l1 = l2 := by
  intro l1
  induction l1 with
  | nil =>
    intro l2 hp _ _ _
    exact (hp.symm.eq_nil).symm
  | cons a t1 ih =>
    intro l2 hp hs1 hs2 hd
    cases l2 with
    | nil => exact absurd hp.eq_nil (by simp)
    | cons b t2 =>
      by_cases hab : a = b
      · subst hab
        rw [ih t2 hp.cons_inv hs1.of_cons hs2.of_cons (List.Pairwise.of_cons hd)]
      · have ha2 : a ∈ t2 := by
          have := hp.subset (List.mem_cons_self a t1)
          simp only [List.mem_cons] at this
          exact this.resolve_left hab
        have hb1 : b ∈ t1 := by
          have := hp.symm.subset (List.mem_cons_self b t2)
          simp only [List.mem_cons] at this
          exact this.resolve_left (fun hc => hab hc.symm)
        have h1 : pathLe a b := List.rel_of_sorted_cons hs1 b hb1
        have h2 : pathLe b a := List.rel_of_sorted_cons hs2 a ha2
        have heq : joinPath a.path = joinPath b.path := by
          unfold pathLe at h1 h2
          have hsw := localeCompare_swap (joinPath a.path) (joinPath b.path)
          cases hcc : localeCompare (joinPath a.path) (joinPath b.path) with
          | gt => exact absurd hcc h1
          | lt =>
            rw [hcc] at hsw
            exact absurd hsw h2
          | eq => exact localeCompare_eq_strings hcc
        exact absurd heq ((List.pairwise_cons.mp hd).1 b hb1)

/-! ### Behavior of the diagnostic traversal engine -/

/-- One-step unfolding of `scanDirectory` at positive fuel. -/
theorem scanDirectory_succ (fs : FS) (fuel : Nat) (dirPath : List String)
    (existingFiles : List (List String)) (visitedPaths : List String)
    (depth maxDepth : Nat) (g : Diag) :
    scanDirectory fs (fuel + 1) dirPath existingFiles visitedPaths depth maxDepth g =
    (if maxDepth < depth then
      some ([], pushDeep g dirPath)
    else
      match fs.realpath dirPath with
      | none => some ([], pushPerm g dirPath)
      | some realPath =>
        if realPath ∈ visitedPaths then
          some ([], pushCycle g dirPath realPath)
        else
          match fs.readdir dirPath with
          | none => some ([], pushDirErr g dirPath)
          | some items =>
            processItems fs
              (fun p g2 => scanDirectory fs fuel p existingFiles
                (realPath :: visitedPaths) (depth + 1) maxDepth g2)
              dirPath existingFiles items g) := rfl

/-- The item loop returns a value whenever the child does. -/
theorem processItems_total (fs : FS)
    (child : List String → Diag → Option (List FileMetadata × Diag))
    (dirPath : List String) (existingFiles : List (List String))
    (hchild : ∀ p g2, (child p g2).isSome) :
    ∀ (items : List DirEntry) (g : Diag),
      (processItems fs child dirPath existingFiles items g).isSome := by
  intro items
  induction items with
  | nil => intro g; simp [processItems]
  | cons item rest ih =>
    intro g
    simp only [processItems]
    split
    · exact ih g
    · split
      · exact ih g
      · split
        · cases hc : child (dirPath ++ [item.name]) g with
          | none =>
            have := hchild (dirPath ++ [item.name]) g
            rw [hc] at this
            cases this
          | some pr =>
            obtain ⟨subEntries, g1⟩ := pr
            cases hp : processItems fs child dirPath existingFiles rest g1 with
            | none =>
              have := ih g1
              rw [hp] at this
              cases this
            | some pr2 =>
              obtain ⟨tailEntries, g2⟩ := pr2
              simp [hp]
        · split
          · split
            · exact ih g
            · split
              · exact ih _
              · cases hp : processItems fs child dirPath existingFiles rest g with
                | none =>
                  have := ih g
                  rw [hp] at this
                  cases this
                | some pr2 =>
                  obtain ⟨tailEntries, g2⟩ := pr2
                  simp [hp]
          · exact ih g

/-- The traversal always returns once the fuel exceeds the remaining
depth budget: the depth guard bounds the recursion for every filesystem,
including ones describing infinite (symlink-cycle-induced) trees. -/
theorem scanDirectory_total (fs : FS) (existingFiles : List (List String))
    (maxDepth : Nat) :
    ∀ (fuel : Nat) (dirPath : List String) (visitedPaths : List String)
      (depth : Nat) (g : Diag), maxDepth + 2 ≤ fuel + depth → depth ≤ maxDepth + 1 →
      (scanDirectory fs fuel dirPath existingFiles visitedPaths depth maxDepth g).isSome := by
  intro fuel
  induction fuel with
  | zero =>
    intro dirPath visitedPaths depth g h1 h2
    omega
  | succ fuel ih =>
    intro dirPath visitedPaths depth g h1 h2
    rw [scanDirectory_succ]
    split
    · simp
    · split
      · simp
      · split
        · simp
        · split
          · simp
          · exact processItems_total _ _ _ _
              (fun p g2 => ih p _ (depth + 1) g2 (by omega) (by omega)) _ g

/-- Splitting the item loop across an append: the left block runs first,
the right block continues on the produced diagnostics, and the records
concatenate. -/
theorem processItems_append (fs : FS)
    (child : List String → Diag → Option (List FileMetadata × Diag))
    (dirPath : List String) (existingFiles : List (List String)) :
    ∀ (l1 l2 : List DirEntry) (g : Diag),
      processItems fs child dirPath existingFiles (l1 ++ l2) g =
      (processItems fs child dirPath existingFiles l1 g).bind (fun r1 =>
        (processItems fs child dirPath existingFiles l2 r1.2).map (fun r2 =>
          (r1.1 ++ r2.1, r2.2))) := by
  intro l1
  induction l1 with
  | nil =>
    intro l2 g
    simp only [List.nil_append, processItems, Option.bind_some]
    cases h2 : processItems fs child dirPath existingFiles l2 g <;> simp [h2]
  | cons item rest ih =>
    intro l2 g
    simp only [List.cons_append, processItems, List.append_eq]
    split
    · exact ih l2 g
    · split
      · exact ih l2 g
      · split
        · cases hc : child (dirPath ++ [item.name]) g with
          | none => simp [hc]
          | some pr =>
            obtain ⟨subEntries, g1⟩ := pr
            simp only [hc]
            rw [ih l2 g1]
            cases hp : processItems fs child dirPath existingFiles rest g1 with
            | none => simp [hp]
            | some pr2 =>
              obtain ⟨tailEntries, g2⟩ := pr2
              cases hq : processItems fs child dirPath existingFiles l2 g2 with
              | none => simp [hp, hq]
              | some pr3 => simp [hp, hq, List.append_assoc]
        · split
          · split
            · exact ih l2 g
            · split
              · exact ih l2 _
              · rw [ih l2 g]
                cases hp : processItems fs child dirPath existingFiles rest g with
                | none => simp [hp]
                | some pr2 =>
                  obtain ⟨tailEntries, g2⟩ := pr2
                  cases hq : processItems fs child dirPath existingFiles l2 g2 with
                  | none => simp [hp, hq]
                  | some pr3 => simp [hp, hq]
          · exact ih l2 g

/-- Records emitted by the item loop satisfy `RecOk` whenever the child
scan's records do. -/
theorem processItems_recOk (fs : FS)
    (child : List String → Diag → Option (List FileMetadata × Diag))
    (dirPath : List String) (existingFiles : List (List String))
    (hchild : ∀ p g2 o, child p g2 = some o → ∀ r ∈ o.1, RecOk existingFiles r) :
    ∀ (items : List DirEntry) (g : Diag) out,
      processItems fs child dirPath existingFiles items g = some out →
      ∀ r ∈ out.1, RecOk existingFiles r := by
  intro items
  induction items with
  | nil =>
    intro g out h r hr
    simp only [processItems] at h
    cases h
    cases hr
  | cons item rest ih =>
    intro g out h r hr
    simp only [processItems] at h
    split at h
    · exact ih g out h r hr
    · split at h
      · exact ih g out h r hr
      · split at h
        · cases hc : child (dirPath ++ [item.name]) g with
          | none => simp [hc] at h
          | some pr =>
            obtain ⟨subEntries, g1⟩ := pr
            simp only [hc] at h
            cases hp : processItems fs child dirPath existingFiles rest g1 with
            | none => simp [hp] at h
            | some pr2 =>
              obtain ⟨tailEntries, g2⟩ := pr2
              simp only [hp, Option.some.injEq] at h
              rw [← h] at hr
              rcases List.mem_append.mp hr with hr1 | hr2
              · exact hchild _ _ _ hc r hr1
              · exact ih g1 (tailEntries, g2) hp r hr2
        · split at h
          · split at h
            · exact ih g out h r hr
            · cases hst : fs.statMtime (dirPath ++ [item.name]) with
              | none =>
                simp only [hst] at h
                exact ih _ out h r hr
              | some mtime =>
                simp only [hst] at h
                cases hp : processItems fs child dirPath existingFiles rest g with
                | none => simp [hp] at h
                | some pr2 =>
                  obtain ⟨tailEntries, g2⟩ := pr2
                  simp only [hp, Option.some.injEq] at h
                  rw [← h] at hr
                  rcases List.mem_cons.mp hr with hr1 | hr2
                  · subst hr1
                    rename_i hsym hname hdir hfile hmem
                    constructor
                    · simpa using hmem
                    · simp only [List.getLast?_concat]
                      intro hcsv
                      exact hname (by simpa using hcsv)
                  · exact ih g (tailEntries, g2) hp r hr2
          · exact ih g out h r hr

/-- Records emitted by the traversal satisfy `RecOk`: skip paths are
never re-recorded and no record is named `metadata.csv`. -/
theorem scanDirectory_recOk (fs : FS) (existingFiles : List (List String))
    (maxDepth : Nat) :
    ∀ (fuel : Nat) (dirPath : List String) (visitedPaths : List String)
      (depth : Nat) (g : Diag) out,
      scanDirectory fs fuel dirPath existingFiles visitedPaths depth maxDepth g = some out →
      ∀ r ∈ out.1, RecOk existingFiles r := by
  intro fuel
  induction fuel with
  | zero =>
    intro dirPath visitedPaths depth g out h
    cases h
  | succ fuel ih =>
    intro dirPath visitedPaths depth g out h r hr
    rw [scanDirectory_succ] at h
    split at h
    · cases h; cases hr
    · split at h
      · cases h; cases hr
      · split at h
        · cases h; cases hr
        · split at h
          · cases h; cases hr
          · exact processItems_recOk fs _ dirPath existingFiles
              (fun p g2 o ho => ih p _ (depth + 1) g2 o ho) _ g out h r hr

/-- The item loop never consults `statMtime` on a skip path, so two
filesystems agreeing everywhere else produce identical loops (given
childwise-identical recursion). -/
theorem processItems_congr (fs fs' : FS)
    (child child' : List String → Diag → Option (List FileMetadata × Diag))
    (dirPath : List String) (existingFiles : List (List String))
    (hchild : ∀ p g2, child p g2 = child' p g2)
    (hst : ∀ p, p ∉ existingFiles → fs.statMtime p = fs'.statMtime p) :
    ∀ (items : List DirEntry) (g : Diag),
      processItems fs child dirPath existingFiles items g =
      processItems fs' child' dirPath existingFiles items g := by
  intro items
  induction items with
  | nil => intro g; simp [processItems]
  | cons item rest ih =>
    intro g
    simp only [processItems]
    split
    · exact ih g
    · split
      · exact ih g
      · split
        · rw [hchild (dirPath ++ [item.name]) g]
          cases child' (dirPath ++ [item.name]) g with
          | none => rfl
          | some pr =>
            obtain ⟨subEntries, g1⟩ := pr
            simp only
            rw [ih g1]
        · split
          · split
            · exact ih g
            · rename_i hsym hname hdir hfile hmem
              rw [hst (dirPath ++ [item.name]) (by simpa using hmem)]
              cases fs'.statMtime (dirPath ++ [item.name]) with
              | none => exact ih _
              | some mtime =>
                simp only
                rw [ih g]
          · exact ih g

/-- The traversal reads mtimes only outside the skip set: scans over two
filesystems that agree on `realpath`, `readdir` and on `statMtime`
outside `existingFiles` coincide — in particular a change to the on-disk
mtime of a skipped (already-recorded) file cannot alter the scan. -/
theorem scanDirectory_congr (fs fs' : FS) (existingFiles : List (List String))
    (maxDepth : Nat)
    (hrp : ∀ p, fs.realpath p = fs'.realpath p)
    (hrd : ∀ p, fs.readdir p = fs'.readdir p)
    (hst : ∀ p, p ∉ existingFiles → fs.statMtime p = fs'.statMtime p) :
    ∀ (fuel : Nat) (dirPath : List String) (visitedPaths : List String)
      (depth : Nat) (g : Diag),
      scanDirectory fs fuel dirPath existingFiles visitedPaths depth maxDepth g =
      scanDirectory fs' fuel dirPath existingFiles visitedPaths depth maxDepth g := by
  intro fuel
  induction fuel with
  | zero => intro dirPath visitedPaths depth g; rfl
  | succ fuel ih =>
    intro dirPath visitedPaths depth g
    rw [scanDirectory_succ, scanDirectory_succ]
    split
    · rfl
    · rw [hrp dirPath]
      cases fs'.realpath dirPath with
      | none => rfl
      | some realPath =>
        simp only
        split
        · rfl
        · rw [hrd dirPath]
          cases fs'.readdir dirPath with
          | none => rfl
          | some items =>
            simp only
            exact processItems_congr fs fs' _ _ dirPath existingFiles
              (fun p g2 => ih p _ (depth + 1) g2) hst items g

/-! ### Behavior of the restore engine -/

/-- The restore loop counts exactly the accessible targets in
`restoredCount` and exactly the missing targets in `errorCount`,
independently of whether any individual timestamp update succeeds. -/
theorem restore_loop_counts (darwin : Bool) (access utimesOk : List String → Bool) :
    ∀ (rows : List FileMetadata) (st : RestoreState),
      (rows.foldl (restoreStep darwin access utimesOk) st).restoredCount =
        st.restoredCount + (rows.filter (fun e => access e.path)).length ∧
      (rows.foldl (restoreStep darwin access utimesOk) st).errorCount =
        st.errorCount + (rows.filter (fun e => ! access e.path)).length := by
  intro rows
  induction rows with
  | nil => intro st; simp
  | cons e rest ih =>
    intro st
    simp only [List.foldl_cons, List.filter_cons]
    cases ha : access e.path with
    | true =>
      have hstep : restoreStep darwin access utimesOk st e =
          { st with
              restoredCount := st.restoredCount + 1
              mtimes := (setFileTimestamps darwin (utimesOk e.path) st.mtimes e.path
                (fromISOString e.modifiedTime)).1
              timestampWarns :=
                if (setFileTimestamps darwin (utimesOk e.path) st.mtimes e.path
                    (fromISOString e.modifiedTime)).2 then
                  st.timestampWarns ++ [e.path]
                else st.timestampWarns } := by
        unfold restoreStep
        rw [if_pos ha]
      rw [hstep]
      obtain ⟨ih1, ih2⟩ := ih _
      rw [ih1, ih2]
      simp [ha]
      omega
    | false =>
      have hstep : restoreStep darwin access utimesOk st e =
          { st with
              errorCount := st.errorCount + 1
              missingPaths := st.missingPaths ++ [e.path] } := by
        unfold restoreStep
        rw [if_neg (by simp [ha])]
      rw [hstep]
      obtain ⟨ih1, ih2⟩ := ih _
      rw [ih1, ih2]
      simp [ha]
      omega

/-- Over rows whose `path` column is present the restore loop never
reaches the outer catch and is a plain fold of `restoreStep`. -/
theorem restoreLoop_eq_foldl (darwin : Bool) (access utimesOk : List String → Bool) :
    ∀ (rows : List FileMetadata) (st : RestoreState),
      restoreLoop darwin access utimesOk st (rows.map fileRow) =
        (rows.foldl (restoreStep darwin access utimesOk) st, false) := by
  intro rows
  induction rows with
  | nil => intro st; rfl
  | cons r rest ih =>
    intro st
    simp only [List.map_cons, restoreLoop, fileRow, List.foldl_cons]
    exact ih _

/-- The restore loop reaches the outer catch exactly when some row lacks
the `path` column: every earlier row, restored or warned about, lets the
loop continue, and a pathless row throws in the loop header before its
per-entry `try`. -/
theorem restoreLoop_exited_iff (darwin : Bool) (access utimesOk : List String → Bool) :
    ∀ (rows : List CsvRow) (st : RestoreState),
      (restoreLoop darwin access utimesOk st rows).2 = true ↔
        ∃ row ∈ rows, row.path = none := by
  intro rows
  induction rows with
  | nil => intro st; simp [restoreLoop]
  | cons row rest ih =>
    intro st
    simp only [restoreLoop]
    cases hp : row.path with
    | none =>
      simp only [List.mem_cons]
      constructor
      · intro _
        exact ⟨row, Or.inl rfl, hp⟩
      · intro _
        trivial
    | some p =>
      rw [ih]
      constructor
      · intro ⟨r2, hr2, hp2⟩
        exact ⟨r2, List.mem_cons_of_mem _ hr2, hp2⟩
      · intro ⟨r2, hr2, hp2⟩
        rcases List.mem_cons.mp hr2 with h | h
        · subst h
          rw [hp] at hp2
          cases hp2
        · exact ⟨r2, h, hp2⟩

/-- Count characterization of a restore over a parsed ledger of
well-formed rows: restored = accessible rows, errors = missing rows,
independent of `utimesOk`, and the fatal exit is never reached. -/
theorem restoreTimestamps_ok_counts
    (rows : List FileMetadata) (access utimesOk : List String → Bool)
    (mtimes : List String → Option Int) (darwin : Bool) :
    (restoreTimestamps ⟨.ok (rows.map fileRow), access, utimesOk, mtimes, darwin⟩).restoredCount =
      (rows.filter (fun e => access e.path)).length ∧
    (restoreTimestamps ⟨.ok (rows.map fileRow), access, utimesOk, mtimes, darwin⟩).errorCount =
      (rows.filter (fun e => ! access e.path)).length ∧
    (restoreTimestamps ⟨.ok (rows.map fileRow), access, utimesOk, mtimes, darwin⟩).exited =
      false := by
  simp only [restoreTimestamps, loadMetadata]
  split
  · rename_i hlen
    rw [List.length_map] at hlen
    have : rows = [] := List.length_eq_zero.mp hlen
    subst this
    simp
  · rw [restoreLoop_eq_foldl darwin access utimesOk rows]
    obtain ⟨h1, h2⟩ := restore_loop_counts darwin access utimesOk rows
      { restoredCount := 0, errorCount := 0, mtimes := mtimes,
        timestampWarns := [], missingPaths := [] }
    refine ⟨?_, ?_, rfl⟩
    · simp only at h1 ⊢
      rw [h1]
      simp
    · simp only at h2 ⊢
      rw [h2]
      simp

/-- C10: during restore, every record whose target exists bumps
`restoredCount` even when the actual timestamp update fails — `fs.utimes`
errors (including those caused by an unparsable stored timestamp) are
caught inside `setFileTimestamps` and only logged — so the restored
count is exactly the number of accessible targets and the reported error
count reflects only missing-target failures, independent of `utimesOk`
and of timestamp validity. -/
theorem C10_restoredCount_counts_accessible_targets
    (rows : List FileMetadata) (access utimesOk : List String → Bool)
    (mtimes : List String → Option Int) (darwin : Bool) :
    (restoreTimestamps ⟨.ok (rows.map fileRow), access, utimesOk, mtimes, darwin⟩).restoredCount =
      (rows.filter (fun e => access e.path)).length ∧
    (restoreTimestamps ⟨.ok (rows.map fileRow), access, utimesOk, mtimes, darwin⟩).errorCount =
      (rows.filter (fun e => ! access e.path)).length :=
  ⟨(restoreTimestamps_ok_counts rows access utimesOk mtimes darwin).1,
   (restoreTimestamps_ok_counts rows access utimesOk mtimes darwin).2.1⟩

/-- C8 counterexample: the claimed "fails fatally iff the ledger is
missing or wholly unreadable" is wrong in both directions.  A missing
(resp. unparsable) `metadata.csv` does not fail fatally: the loader
swallows the failure into the empty ledger and the run returns normally
(`exited = false`) with the zero-record no-op warning.  Conversely a
present, cleanly parsable ledger whose header lacks a `path` column does
fail fatally: its row's `path` is `undefined`, the loop header's `join`
throws outside the per-entry `try`, and the outer catch calls
`process.exit(1)` (`exited = true`). -/
theorem C8_counterexample_fatality_mischaracterized :
    (restoreTimestamps ⟨.absent, fun _ => false, fun _ => true,
        fun _ => none, false⟩).exited = false ∧
    (restoreTimestamps ⟨.absent, fun _ => false, fun _ => true,
        fun _ => none, false⟩).emptyWarn = true ∧
    (restoreTimestamps ⟨.absent, fun _ => false, fun _ => true,
        fun _ => none, false⟩).restoredCount = 0 ∧
    (restoreTimestamps ⟨.corrupt, fun _ => false, fun _ => true,
        fun _ => none, false⟩).exited = false ∧
    (restoreTimestamps ⟨.corrupt, fun _ => false, fun _ => true,
        fun _ => none, false⟩).emptyWarn = true ∧
    (restoreTimestamps ⟨.ok [⟨none, "2024-01-15T10:30:45.123Z"⟩], fun _ => true,
        fun _ => true, fun _ => none, false⟩).exited = true := by
  refine ⟨rfl, rfl, rfl, rfl, rfl, rfl⟩

/-- C8 (amended): the restore routine fails fatally (reaches the outer
catch's `process.exit(1)`) exactly when the loaded ledger is nonempty
and some parsed row lacks the `path` column — `entry.path` is then
`undefined` and the loop header's `join` throws outside the per-entry
`try`.  In particular a missing or wholly unreadable ledger is not fatal:
the loader degrades it to the empty ledger and the run yields
`restoredCount = 0` with the no-op warning; over well-formed rows every
record whose target is missing adds a warning-counted error while the
batch continues, the restored count being exactly the accessible
targets; and a zero-record ledger likewise yields `restoredCount = 0`
with the no-op warning. -/
theorem C8_restore_fatal_iff_pathless_row (fs : RestoreFS) :
    ((restoreTimestamps fs).exited = true ↔
      loadMetadata fs.ledger ≠ [] ∧ ∃ row ∈ loadMetadata fs.ledger, row.path = none) ∧
    (fs.ledger = .absent ∨ fs.ledger = .corrupt →
      restoreTimestamps fs =
        { restoredCount := 0, errorCount := 0, emptyWarn := true, missingPaths := [],
          timestampWarns := [], exited := false, mtimes := fs.mtimes }) ∧
    (∀ rows : List FileMetadata, fs.ledger = .ok (rows.map fileRow) →
      (restoreTimestamps fs).exited = false ∧
      (restoreTimestamps fs).restoredCount =
        (rows.filter (fun e => fs.access e.path)).length ∧
      (restoreTimestamps fs).errorCount =
        (rows.filter (fun e => ! fs.access e.path)).length) ∧
    (fs.ledger = .ok [] →
      (restoreTimestamps fs).emptyWarn = true ∧
      (restoreTimestamps fs).restoredCount = 0 ∧
      (restoreTimestamps fs).exited = false) := by
  obtain ⟨led, acc, ut, mt, dw⟩ := fs
  refine ⟨?_, ?_, ?_, ?_⟩
  · simp only [restoreTimestamps]
    split
    · rename_i hlen
      have hnil : loadMetadata led = [] := List.length_eq_zero.mp hlen
      simp [hnil]
    · rename_i hlen
      rw [restoreLoop_exited_iff]
      have hne : loadMetadata led ≠ [] := by
        intro hnil
        rw [hnil] at hlen
        exact hlen rfl
      simp [hne]
  · intro h
    rcases h with h | h <;> subst h <;> rfl
  · intro rows h
    subst h
    have hc := restoreTimestamps_ok_counts rows acc ut mt dw
    exact ⟨hc.2.2, hc.1, hc.2.1⟩
  · intro h
    subst h
    exact ⟨rfl, rfl, rfl⟩

/-- C8 witness: the amended statement applied at a concrete one-row
pathless ledger (fatal) and at a concrete one-row well-formed ledger
whose single target is missing (warn and continue). -/
theorem C8_witness :
    (restoreTimestamps ⟨.ok [⟨none, "t"⟩], fun _ => true, fun _ => true,
        fun _ => none, false⟩).exited = true ∧
    (restoreTimestamps ⟨.ok [⟨some ["missing.txt"], "2024-01-15T10:30:45.123Z"⟩],
        fun _ => false, fun _ => true, fun _ => none, false⟩).restoredCount = 0 ∧
    (restoreTimestamps ⟨.ok [⟨some ["missing.txt"], "2024-01-15T10:30:45.123Z"⟩],
        fun _ => false, fun _ => true, fun _ => none, false⟩).errorCount = 1 := by
  refine ⟨?_, ?_⟩
  · exact (C8_restore_fatal_iff_pathless_row
      ⟨.ok [⟨none, "t"⟩], fun _ => true, fun _ => true, fun _ => none, false⟩).1.mpr
      ⟨by decide, ⟨⟨none, "t"⟩, by decide, rfl⟩⟩
  · have h := (C8_restore_fatal_iff_pathless_row
      ⟨.ok [⟨some ["missing.txt"], "2024-01-15T10:30:45.123Z"⟩], fun _ => false,
        fun _ => true, fun _ => none, false⟩).2.2.1
      [⟨["missing.txt"], "2024-01-15T10:30:45.123Z"⟩] rfl
    obtain ⟨_, h1, h2⟩ := h
    constructor
    · rw [h1]
      decide
    · rw [h2]
      decide

/-- C6: the scan terminates on every input tree, including ones made
unbounded by symlink cycles: whenever the current depth exceeds
`maxDepth` the engine emits a `DEEP_NESTING` diagnostic for that
directory and returns at once without descending (the result is
independent of the filesystem below it); consequently a recursion budget
of `maxDepth + 2 - depth` is never exhausted for any filesystem, and
`scanFolder` (depth 0, `maxDepth = 50`) always returns. -/
theorem C6_depth_guard_bounds_recursion :
    (∀ (fs : FS) (fuel : Nat) (dirPath : List String)
        (existingFiles : List (List String)) (visitedPaths : List String)
        (depth maxDepth : Nat) (g : Diag),
      maxDepth < depth →
      scanDirectory fs (fuel + 1) dirPath existingFiles visitedPaths depth maxDepth g =
        some ([], pushDeep g dirPath)) ∧
    (∀ (fs : FS) (existingFiles : List (List String)) (maxDepth fuel : Nat)
        (dirPath : List String) (visitedPaths : List String) (depth : Nat) (g : Diag),
      maxDepth + 2 ≤ fuel + depth → depth ≤ maxDepth + 1 →
      (scanDirectory fs fuel dirPath existingFiles visitedPaths depth maxDepth g).isSome) ∧
    (∀ (fs : FS) (appendOnly : Bool) (ledger : LedgerFile),
      (scanFolder fs appendOnly ledger).isSome) := by
  refine ⟨?_, ?_, ?_⟩
  · intro fs fuel dirPath ex vis depth maxDepth g h
    rw [scanDirectory_succ, if_pos h]
  · intro fs ex maxDepth fuel dirPath vis depth g h1 h2
    exact scanDirectory_total fs ex maxDepth fuel dirPath vis depth g h1 h2
  · intro fs appendOnly ledger
    unfold scanFolder
    have h := scanDirectory_total fs
      ((if appendOnly then loadExistingMetadata ledger else []).map (fun r => r.path))
      50 52 [] [] 0 Diag.empty (by omega) (by omega)
    cases hs : scanDirectory fs 52 []
        ((if appendOnly then loadExistingMetadata ledger else []).map (fun r => r.path))
        [] 0 50 Diag.empty with
    | none => rw [hs] at h; cases h
    | some out => simp [hs]

/-- C6 witness: the depth guard applied one level past the bound, and a
whole scan of the genuinely infinite tree `loopFS` returning. -/
theorem C6_witness :
    (50 < 51 ∧
      scanDirectory loopFS (0 + 1) ["x"] [] [] 51 50 Diag.empty =
        some ([], pushDeep Diag.empty ["x"])) ∧
    (scanFolder loopFS false .absent).isSome := by
  constructor
  · exact ⟨by decide,
      C6_depth_guard_bounds_recursion.1 loopFS 0 ["x"] [] [] 51 50 Diag.empty (by decide)⟩
  · exact C6_depth_guard_bounds_recursion.2.2 loopFS false .absent

/-- C5: before reading a directory the engine resolves its canonical
real path and checks it against the lineage of this branch.  (1) When the
real path is already in the lineage, the node contributes no records,
reads nothing below, and appends exactly one `CIRCULAR_SYMLINK`
diagnostic.  (2) Otherwise every child of the node is launched with the
same fresh lineage `realPath :: visitedPaths`, threaded per branch, so
siblings never see each other's additions.  (3) Concretely, two sibling
branches reaching the same real path `SHARED` are both scanned with no
cycle diagnostic, while (4) a loop back to an ancestor terminates with
exactly one `CIRCULAR_SYMLINK` diagnostic for that loop. -/
theorem C5_cycle_check_uses_branch_lineage :
    (∀ (fs : FS) (fuel : Nat) (dirPath : List String)
        (existingFiles : List (List String)) (visitedPaths : List String)
        (depth maxDepth : Nat) (g : Diag) (rp : String),
      depth ≤ maxDepth → fs.realpath dirPath = some rp → rp ∈ visitedPaths →
      scanDirectory fs (fuel + 1) dirPath existingFiles visitedPaths depth maxDepth g =
        some ([], pushCycle g dirPath rp)) ∧
    (∀ (fs : FS) (fuel : Nat) (dirPath : List String)
        (existingFiles : List (List String)) (visitedPaths : List String)
        (depth maxDepth : Nat) (g : Diag) (rp : String) (items : List DirEntry),
      depth ≤ maxDepth → fs.realpath dirPath = some rp → rp ∉ visitedPaths →
      fs.readdir dirPath = some items →
      scanDirectory fs (fuel + 1) dirPath existingFiles visitedPaths depth maxDepth g =
        processItems fs
          (fun p g2 => scanDirectory fs fuel p existingFiles (rp :: visitedPaths)
            (depth + 1) maxDepth g2)
          dirPath existingFiles items g) ∧
    scanFolder twinFS false .absent =
      some ([⟨["a", "c", "f.txt"], "1970-01-01T00:00:00.000Z"⟩,
             ⟨["b", "c", "g.txt"], "1970-01-01T00:00:00.005Z"⟩], Diag.empty) ∧
    scanFolder cycleFS false .absent =
      some ([], pushCycle Diag.empty ["loop"] "R") := by
  refine ⟨?_, ?_, ?_, ?_⟩
  · intro fs fuel dirPath ex vis depth maxDepth g rp hd hrp hmem
    rw [scanDirectory_succ, if_neg (Nat.not_lt.mpr hd), hrp]
    simp only
    rw [if_pos hmem]
  · intro fs fuel dirPath ex vis depth maxDepth g rp items hd hrp hmem hrd
    rw [scanDirectory_succ, if_neg (Nat.not_lt.mpr hd), hrp]
    simp only
    rw [if_neg hmem, hrd]
  · decide
  · decide

/-- C5 witness: the lineage cycle check applied at the concrete loop node
of `cycleFS`, and the fresh-lineage decomposition applied at the root of
`twinFS`. -/
theorem C5_witness :
    (1 ≤ 50 ∧ cycleFS.realpath ["loop"] = some "R" ∧ "R" ∈ ["R"]) ∧
    scanDirectory cycleFS (50 + 1) ["loop"] [] ["R"] 1 50 Diag.empty =
      some ([], pushCycle Diag.empty ["loop"] "R") ∧
    scanDirectory twinFS (51 + 1) [] [] [] 0 50 Diag.empty =
      processItems twinFS
        (fun p g2 => scanDirectory twinFS 51 p [] ["R"] 1 50 g2) [] []
        [⟨"a", false, true, false⟩, ⟨"b", false, true, false⟩] Diag.empty := by
  refine ⟨⟨by decide, by decide, by decide⟩, ?_, ?_⟩
  · exact C5_cycle_check_uses_branch_lineage.1 cycleFS 50 ["loop"] [] ["R"] 1 50
      Diag.empty "R" (by decide) (by decide) (by decide)
  · exact C5_cycle_check_uses_branch_lineage.2.1 twinFS 51 [] [] [] 0 50 Diag.empty
      "R" [⟨"a", false, true, false⟩, ⟨"b", false, true, false⟩]
      (by decide) (by decide) (by decide) (by decide)

/-- C4 counterexample: the legacy scanner (`src/scanner.ts`) terminates
the process on a single bad subtree — scanning a root whose subdirectory
`bad` fails `readdir` reaches `process.exit(1)` (`Except.error ()`), so
the sibling `ok.txt` is never recorded and the scan is aborted, refuting
"the scan is never aborted by a single bad subtree and the engine never
terminates the process". -/
theorem C4_counterexample_legacy_scanner_exits :
    Legacy.scanFolder badDirFS false .absent 3 = some (.error ()) := by
  decide

/-- C4 (amended): the diagnostic traversal engine (`src/cli.ts`) converts
every per-directory and per-entry I/O failure into a diagnostic naming
the offending relative path and continues with the siblings — (1) a child
directory whose `readdir` fails contributes no records and exactly one
`DIRECTORY_READ_ERROR`, with the items before and after it processed
normally; (2) a file whose `stat` fails contributes exactly one
`FILE_ACCESS_ERROR` likewise; (3) the engine always returns a result
(never exits); (4) concretely, the scan of `badDirFS` records the healthy
sibling and reports the bad directory.  The legacy `src/scanner.ts`
scanner instead terminates the process on any such failure. -/
theorem C4_diagnostic_engine_survives_bad_subtrees :
    (∀ (fs : FS) (fuel : Nat) (dirPath : List String)
        (existingFiles : List (List String)) (visitedPaths : List String)
        (depth maxDepth : Nat) (g : Diag) (rp rb : String)
        (l1 l2 : List DirEntry) (e : DirEntry),
      depth ≤ maxDepth → fs.realpath dirPath = some rp → rp ∉ visitedPaths →
      fs.readdir dirPath = some (l1 ++ e :: l2) →
      (e.isSymbolicLink || isSymlink e.name) = false → e.name ≠ "metadata.csv" →
      e.isDirectory = true → depth + 1 ≤ maxDepth →
      fs.realpath (dirPath ++ [e.name]) = some rb → rb ∉ rp :: visitedPaths →
      fs.readdir (dirPath ++ [e.name]) = none →
      scanDirectory fs (fuel + 1 + 1) dirPath existingFiles visitedPaths depth maxDepth g =
        (processItems fs
            (fun p g2 => scanDirectory fs (fuel + 1) p existingFiles
              (rp :: visitedPaths) (depth + 1) maxDepth g2)
            dirPath existingFiles l1 g).bind (fun r1 =>
          (processItems fs
              (fun p g2 => scanDirectory fs (fuel + 1) p existingFiles
                (rp :: visitedPaths) (depth + 1) maxDepth g2)
              dirPath existingFiles l2
              (pushDirErr r1.2 (dirPath ++ [e.name]))).map (fun r2 =>
            (r1.1 ++ r2.1, r2.2)))) ∧
    (∀ (fs : FS) (child : List String → Diag → Option (List FileMetadata × Diag))
        (dirPath : List String) (existingFiles : List (List String))
        (l1 l2 : List DirEntry) (e : DirEntry) (g : Diag),
      (e.isSymbolicLink || isSymlink e.name) = false → e.name ≠ "metadata.csv" →
      e.isDirectory = false → e.isFile = true →
      (dirPath ++ [e.name]) ∉ existingFiles →
      fs.statMtime (dirPath ++ [e.name]) = none →
      processItems fs child dirPath existingFiles (l1 ++ e :: l2) g =
        (processItems fs child dirPath existingFiles l1 g).bind (fun r1 =>
          (processItems fs child dirPath existingFiles l2
              (pushFileErr r1.2 (dirPath ++ [e.name]))).map (fun r2 =>
            (r1.1 ++ r2.1, r2.2)))) ∧
    (∀ (fs : FS) (existingFiles : List (List String)) (maxDepth fuel : Nat)
        (dirPath : List String) (visitedPaths : List String) (depth : Nat) (g : Diag),
      maxDepth + 2 ≤ fuel + depth → depth ≤ maxDepth + 1 →
      (scanDirectory fs fuel dirPath existingFiles visitedPaths depth maxDepth g).isSome) ∧
    scanFolder badDirFS false .absent =
      some ([⟨["ok.txt"], "1970-01-01T00:00:00.007Z"⟩],
        pushDirErr Diag.empty ["bad"]) := by
  refine ⟨?_, ?_, ?_, ?_⟩
  · intro fs fuel dirPath ex vis depth maxDepth g rp rb l1 l2 e
      hd hrp hrpmem hrd hskip hname hdir hd2 hrb hrbmem hbad
    rw [scanDirectory_succ, if_neg (Nat.not_lt.mpr hd), hrp]
    simp only
    rw [if_neg hrpmem, hrd]
    simp only
    rw [processItems_append]
    have hstep : ∀ d : Diag,
        processItems fs
          (fun p g2 => scanDirectory fs (fuel + 1) p ex (rp :: vis)
            (depth + 1) maxDepth g2) dirPath ex (e :: l2) d =
        processItems fs
          (fun p g2 => scanDirectory fs (fuel + 1) p ex (rp :: vis)
            (depth + 1) maxDepth g2) dirPath ex l2
          (pushDirErr d (dirPath ++ [e.name])) := by
      intro d
      simp only [processItems, hskip, Bool.false_eq_true, if_false, hname,
        if_neg, hdir, if_true]
      rw [scanDirectory_succ, if_neg (Nat.not_lt.mpr hd2), hrb]
      simp only
      rw [if_neg hrbmem, hbad]
      simp only
      cases hq : processItems fs
          (fun p g2 => scanDirectory fs (fuel + 1) p ex (rp :: vis)
            (depth + 1) maxDepth g2) dirPath ex l2
          (pushDirErr d (dirPath ++ [e.name])) with
      | none => rfl
      | some r2 => simp
    cases hp : processItems fs
        (fun p g2 => scanDirectory fs (fuel + 1) p ex (rp :: vis)
          (depth + 1) maxDepth g2) dirPath ex l1 g with
    | none => rfl
    | some r1 => simp [hstep r1.2]
  · intro fs child dirPath ex l1 l2 e g hskip hname hdir hfile hmem hstat
    rw [processItems_append]
    have hstep : ∀ d : Diag,
        processItems fs child dirPath ex (e :: l2) d =
        processItems fs child dirPath ex l2 (pushFileErr d (dirPath ++ [e.name])) := by
      intro d
      simp only [processItems, hskip, Bool.false_eq_true, if_false, hname,
        if_neg, hdir, hfile, if_true, hmem, hstat]
    cases hp : processItems fs child dirPath ex l1 g with
    | none => rfl
    | some r1 => simp [hstep r1.2]
  · intro fs ex maxDepth fuel dirPath vis depth g h1 h2
    exact scanDirectory_total fs ex maxDepth fuel dirPath vis depth g h1 h2
  · decide

/-- C4 witness: the bad-subtree decomposition applied to the concrete
tree `badDirFS`, whose subdirectory `bad` fails `readdir`. -/
theorem C4_witness :
    (0 ≤ 50 ∧ badDirFS.readdir ["bad"] = none) ∧
    scanDirectory badDirFS (50 + 1 + 1) [] [] [] 0 50 Diag.empty =
      (processItems badDirFS
          (fun p g2 => scanDirectory badDirFS (50 + 1) p [] ("root" :: []) (0 + 1) 50 g2)
          [] [] [] Diag.empty).bind (fun r1 =>
        (processItems badDirFS
            (fun p g2 => scanDirectory badDirFS (50 + 1) p [] ("root" :: []) (0 + 1) 50 g2)
            [] [] [⟨"ok.txt", false, false, true⟩]
            (pushDirErr r1.2 ([] ++ ["bad"]))).map (fun r2 => (r1.1 ++ r2.1, r2.2))) := by
  refine ⟨⟨by decide, by decide⟩, ?_⟩
  exact C4_diagnostic_engine_survives_bad_subtrees.1 badDirFS 50 [] [] [] 0 50 Diag.empty
    "root" "root/bad" [] [⟨"ok.txt", false, false, true⟩] ⟨"bad", false, true, false⟩
    (by decide) (by decide) (by decide) (by decide) (by decide) (by decide)
    (by decide) (by decide) (by decide) (by decide) (by decide)

/-- C2 counterexample: a regular file named `a.lnk` — its directory-entry
link-type bit is `false` — is nevertheless skipped by both scanners
because `isSymlink` matches its name against `/\.l.*nk$/i`; the resulting
ledgers are empty, refuting "a regular file whose name merely looks
symlink-like is still recorded". -/
theorem C2_counterexample_lnk_named_file_skipped :
    isSymlink "a.lnk" = true ∧
    scanFolder lnkFS false .absent = some ([], Diag.empty) ∧
    Legacy.scanFolder lnkFS false .absent 2 = some (.ok []) := by
  refine ⟨by decide, by decide, by decide⟩

/-- C2 (amended): an entry is skipped as a symbolic link if and only if
its link-type bit is set or its name matches the case-insensitive
`/\.l.*nk$/i` heuristic: (1) such an entry is ignored entirely — no
record, no descent, no diagnostic; (2) an entry failing both tests that
is a regular file outside the skip set is recorded with its stat mtime;
(3) the heuristic fires on names such as `a.lnk` and `a.link` while
leaving ordinary names alone, so symlink-looking regular files are never
recorded. -/
theorem C2_symlink_skip_uses_name_heuristic :
    (∀ (fs : FS) (child : List String → Diag → Option (List FileMetadata × Diag))
        (dirPath : List String) (existingFiles : List (List String))
        (e : DirEntry) (rest : List DirEntry) (g : Diag),
      (e.isSymbolicLink || isSymlink e.name) = true →
      processItems fs child dirPath existingFiles (e :: rest) g =
        processItems fs child dirPath existingFiles rest g) ∧
    (∀ (fs : FS) (child : List String → Diag → Option (List FileMetadata × Diag))
        (dirPath : List String) (existingFiles : List (List String))
        (e : DirEntry) (rest : List DirEntry) (g : Diag) (t : Int),
      e.isSymbolicLink = false → isSymlink e.name = false →
      e.name ≠ "metadata.csv" → e.isDirectory = false → e.isFile = true →
      (dirPath ++ [e.name]) ∉ existingFiles →
      fs.statMtime (dirPath ++ [e.name]) = some t →
      processItems fs child dirPath existingFiles (e :: rest) g =
        (processItems fs child dirPath existingFiles rest g).map (fun r =>
          (⟨dirPath ++ [e.name], toISOString t⟩ :: r.1, r.2))) ∧
    isSymlink "a.lnk" = true ∧ isSymlink "a.link" = true ∧
    isSymlink "A.LNK" = true ∧ isSymlink "a.txt" = false ∧
    isSymlink "metadata.csv" = false := by
  refine ⟨?_, ?_, by decide, by decide, by decide, by decide, by decide⟩
  · intro fs child dirPath ex e rest g h
    simp only [processItems]
    rw [if_pos h]
  · intro fs child dirPath ex e rest g t hbit hheur hname hdir hfile hmem hstat
    simp only [processItems, hbit, hheur, Bool.or_self, Bool.false_eq_true, if_false,
      hname, if_neg, hdir, hfile, if_true, hstat]
    rw [if_neg hmem]
    cases hp : processItems fs child dirPath ex rest g with
    | none => rfl
    | some r => simp

/-- C2 witness: the skip rule applied to the concrete `a.lnk` entry of
`lnkFS`, and the record rule applied to an ordinary `a.txt` entry. -/
theorem C2_witness :
    ((false || isSymlink "a.lnk") = true ∧
      processItems lnkFS (fun _ g => some ([], g)) [] []
          [⟨"a.lnk", false, false, true⟩] Diag.empty =
        processItems lnkFS (fun _ g => some ([], g)) [] [] [] Diag.empty) ∧
    badDirFS.statMtime ([] ++ ["ok.txt"]) = some 7 ∧
    processItems badDirFS (fun _ g => some ([], g)) [] []
        [⟨"ok.txt", false, false, true⟩] Diag.empty =
      (processItems badDirFS (fun _ g => some ([], g)) [] [] [] Diag.empty).map (fun r =>
        (⟨[] ++ ["ok.txt"], toISOString 7⟩ :: r.1, r.2)) := by
  refine ⟨⟨by decide, ?_⟩, by decide, ?_⟩
  · exact C2_symlink_skip_uses_name_heuristic.1 lnkFS (fun _ g => some ([], g)) [] []
      ⟨"a.lnk", false, false, true⟩ [] Diag.empty (by decide)
  · exact C2_symlink_skip_uses_name_heuristic.2.1 badDirFS (fun _ g => some ([], g)) [] []
      ⟨"ok.txt", false, false, true⟩ [] Diag.empty 7
      (by decide) (by decide) (by decide) (by decide) (by decide) (by decide) (by decide)

/-- C3 counterexample: the ledger rows are sorted by `localeCompare`, not
byte-lexicographically — scanning a tree holding `B.txt` and `a.txt`
writes `a.txt` before `B.txt`, although `"B.txt"` strictly precedes
`"a.txt"` in byte-lexicographic (code-point) order, refuting "sorted
ascending by path under byte-lexicographic string order". -/
theorem C3_counterexample_not_byte_order :
    (scanFolder caseFS false .absent).map (fun r => r.1.map (fun m => joinPath m.path)) =
      some ["a.txt", "B.txt"] ∧
    byteLexLt "B.txt".data "a.txt".data = true := by
  refine ⟨by decide, by decide⟩

/-- C3 (amended): the serialized ledger's rows are sorted ascending by
the `localeCompare` comparator (locale-aware: case-insensitive primary
pass, so `a.txt` precedes `B.txt`), not byte order; and for ledgers with
pairwise distinct path strings the sorted output is independent of the
order in which the filesystem enumerated the records. -/
theorem C3_rows_sorted_by_localeCompare :
    (∀ (fs : FS) (appendOnly : Bool) (ledger : LedgerFile)
        (out : List FileMetadata) (g : Diag),
      scanFolder fs appendOnly ledger = some (out, g) → List.Sorted pathLe out) ∧
    (∀ l l' : List FileMetadata, l.Perm l' →
      l.Pairwise (fun x y => joinPath x.path ≠ joinPath y.path) →
      sortRecs l = sortRecs l') ∧
    localeCompare "a.txt" "B.txt" = .lt := by
  refine ⟨?_, ?_, by decide⟩
  · intro fs appendOnly ledger out g h
    simp only [scanFolder, Option.map_eq_some'] at h
    obtain ⟨inner, hinner, heq⟩ := h
    rw [Prod.ext_iff] at heq
    obtain ⟨h1, h2⟩ := heq
    simp only at h1
    rw [← h1]
    exact sortRecs_sorted _
  · intro l l' hp hd
    apply sorted_perm_unique
    · exact (sortRecs_perm l).trans (hp.trans (sortRecs_perm l').symm)
    · exact sortRecs_sorted l
    · exact sortRecs_sorted l'
    · exact ((sortRecs_perm l).pairwise_iff (fun h hc => h hc.symm)).mpr hd

/-- C3 witness: sortedness of the concrete `caseFS` scan output and
determinism across a concrete enumeration reordering. -/
theorem C3_witness :
    (scanFolder caseFS false .absent =
      some ([⟨["a.txt"], "1970-01-01T00:00:00.001Z"⟩,
             ⟨["B.txt"], "1970-01-01T00:00:00.000Z"⟩], Diag.empty) ∧
      List.Sorted pathLe [(⟨["a.txt"], "1970-01-01T00:00:00.001Z"⟩ : FileMetadata),
        ⟨["B.txt"], "1970-01-01T00:00:00.000Z"⟩]) ∧
    sortRecs [⟨["B.txt"], "x"⟩, ⟨["a.txt"], "y"⟩] =
      sortRecs [⟨["a.txt"], "y"⟩, ⟨["B.txt"], "x"⟩] := by
  refine ⟨⟨by decide, ?_⟩, ?_⟩
  · exact C3_rows_sorted_by_localeCompare.1 caseFS false .absent _ Diag.empty (by decide)
  · exact C3_rows_sorted_by_localeCompare.2.1 _ _
      (List.Perm.swap _ _ _) (by decide)

/-- C9 counterexample: the legacy scanner (`src/scanner.ts`) has no
reserved-name exclusion, so scanning a tree that already holds a file
named `metadata.csv` lists the ledger's own name inside the ledger. -/
theorem C9_counterexample_legacy_lists_ledger_in_itself :
    Legacy.scanFolder metaFS false .absent 2 =
      some (.ok [⟨["a.txt"], "1970-01-01T00:00:00.004Z"⟩,
                 ⟨["metadata.csv"], "1970-01-01T00:00:00.003Z"⟩]) ∧
    (⟨["metadata.csv"], "1970-01-01T00:00:00.003Z"⟩ : FileMetadata).path = ["metadata.csv"] := by
  refine ⟨by decide, by decide⟩

set_option maxRecDepth 4000 in
/-- C9 (amended): the diagnostic engine (`src/cli.ts`) never lists the
ledger inside itself — in Replace mode every record of a successful scan
has a path different from `metadata.csv`, and in Append-only mode the
same holds provided the prior ledger's rows do; the legacy scanner
(`src/scanner.ts`) lacks the exclusion and violates the claim. -/
theorem C9_ledger_never_lists_itself :
    (∀ (fs : FS) (ledger : LedgerFile) (out : List FileMetadata) (g : Diag),
      scanFolder fs false ledger = some (out, g) →
      ∀ r ∈ out, r.path ≠ ["metadata.csv"]) ∧
    (∀ (fs : FS) (ledger : LedgerFile) (out : List FileMetadata) (g : Diag),
      scanFolder fs true ledger = some (out, g) →
      (∀ p ∈ loadExistingMetadata ledger, p.path ≠ ["metadata.csv"]) →
      ∀ r ∈ out, r.path ≠ ["metadata.csv"]) := by
  constructor
  · intro fs ledger out g h r hr hbad
    simp only [scanFolder, Bool.false_eq_true, if_false, List.map_nil, List.nil_append,
      Option.map_eq_some'] at h
    obtain ⟨inner, hinner, heq⟩ := h
    rw [Prod.ext_iff] at heq
    obtain ⟨h1, h2⟩ := heq
    simp only at h1
    rw [← h1] at hr
    have hr2 : r ∈ inner.1 := (sortRecs_perm inner.1).mem_iff.mp hr
    have hrec := scanDirectory_recOk fs [] 50 52 [] [] 0 Diag.empty inner hinner r hr2
    apply hrec.2
    rw [hbad]
    rfl
  · intro fs ledger out g h hprior r hr hbad
    simp only [scanFolder, eq_self_iff_true, if_true, Option.map_eq_some'] at h
    obtain ⟨inner, hinner, heq⟩ := h
    rw [Prod.ext_iff] at heq
    obtain ⟨h1, h2⟩ := heq
    simp only at h1
    rw [← h1] at hr
    have hr2 : r ∈ loadExistingMetadata ledger ++ inner.1 :=
      (sortRecs_perm _).mem_iff.mp hr
    rcases List.mem_append.mp hr2 with hold | hnew
    · exact hprior r hold hbad
    · have hrec := scanDirectory_recOk fs _ 50 52 [] [] 0 Diag.empty
        inner hinner r hnew
      apply hrec.2
      rw [hbad]
      rfl

/-- C9 witness: both modes on concrete trees containing a `metadata.csv`
file, with the hypotheses discharged by evaluation. -/
theorem C9_witness :
    (scanFolder metaFS false .absent =
        some ([⟨["a.txt"], "1970-01-01T00:00:00.004Z"⟩], Diag.empty) ∧
      (⟨["a.txt"], "1970-01-01T00:00:00.004Z"⟩ : FileMetadata).path ≠ ["metadata.csv"]) ∧
    (scanFolder metaFS true (.ok [⟨["b.txt"], "t"⟩]) =
        some ([⟨["a.txt"], "1970-01-01T00:00:00.004Z"⟩, ⟨["b.txt"], "t"⟩], Diag.empty) ∧
      (⟨["b.txt"], "t"⟩ : FileMetadata).path ≠ ["metadata.csv"]) := by
  refine ⟨⟨by decide, ?_⟩, ⟨by decide, ?_⟩⟩
  · exact C9_ledger_never_lists_itself.1 metaFS .absent
      [⟨["a.txt"], "1970-01-01T00:00:00.004Z"⟩] Diag.empty (by decide)
      ⟨["a.txt"], "1970-01-01T00:00:00.004Z"⟩ (by decide)
  · exact C9_ledger_never_lists_itself.2 metaFS (.ok [⟨["b.txt"], "t"⟩])
      [⟨["a.txt"], "1970-01-01T00:00:00.004Z"⟩, ⟨["b.txt"], "t"⟩] Diag.empty (by decide)
      (by decide)
      ⟨["b.txt"], "t"⟩ (by decide)

set_option maxRecDepth 4000 in
/-- C7: under an append-only scan every prior-ledger record appears in
the output verbatim (path and timestamp unchanged, even if its file was
removed from disk — never pruned), the output is exactly the prior rows
unioned with the newly discovered records, whose paths are all new; and
because existing paths are passed to the traversal as skip paths they
are never re-stat'd: the whole scan result is unchanged under any
modification of on-disk mtimes at the prior paths. -/
theorem C7_append_only_preserves_prior_entries :
    (∀ (fs : FS) (ledger : LedgerFile) (out : List FileMetadata) (g : Diag),
      scanFolder fs true ledger = some (out, g) →
      (∀ r ∈ loadExistingMetadata ledger, r ∈ out) ∧
      ∃ inner, scanDirectory fs 52 []
          ((loadExistingMetadata ledger).map (fun r => r.path)) [] 0 50 Diag.empty =
          some inner ∧
        out.Perm (loadExistingMetadata ledger ++ inner.1) ∧
        ∀ r ∈ inner.1, r.path ∉ (loadExistingMetadata ledger).map (fun r => r.path)) ∧
    (∀ (fs fs2 : FS) (ledger : LedgerFile),
      (∀ p, fs.realpath p = fs2.realpath p) →
      (∀ p, fs.readdir p = fs2.readdir p) →
      (∀ p, p ∉ (loadExistingMetadata ledger).map (fun r => r.path) →
        fs.statMtime p = fs2.statMtime p) →
      scanFolder fs true ledger = scanFolder fs2 true ledger) := by
  constructor
  · intro fs ledger out g h
    simp only [scanFolder, eq_self_iff_true, if_true, Option.map_eq_some'] at h
    obtain ⟨inner, hinner, heq⟩ := h
    rw [Prod.ext_iff] at heq
    obtain ⟨h1, h2⟩ := heq
    simp only at h1
    constructor
    · intro r hr
      rw [← h1]
      exact (sortRecs_perm _).mem_iff.mpr (List.mem_append_left _ hr)
    · refine ⟨inner, hinner, ?_, ?_⟩
      · rw [← h1]
        exact sortRecs_perm _
      · intro r hrI
        exact (scanDirectory_recOk fs _ 50 52 [] [] 0 Diag.empty inner hinner r hrI).1
  · intro fs fs2 ledger hrp hrd hst
    simp only [scanFolder, eq_self_iff_true, if_true]
    rw [scanDirectory_congr fs fs2 _ 50 hrp hrd hst 52 [] [] 0 Diag.empty]

set_option maxRecDepth 4000 in
/-- C7 witness: the prior row survives a rescan verbatim next to the
fresh record, survives deletion of its file, and the scan result is
insensitive to the on-disk mtime of the already-recorded path. -/
theorem C7_witness :
    (scanFolder c7fs true (.ok [priorRec]) =
        some ([⟨["new.txt"], "1970-01-01T00:00:00.005Z"⟩, priorRec], Diag.empty) ∧
      priorRec ∈ [⟨["new.txt"], "1970-01-01T00:00:00.005Z"⟩, priorRec]) ∧
    (scanFolder removedFS true (.ok [priorRec]) =
        some ([⟨["new.txt"], "1970-01-01T00:00:00.005Z"⟩, priorRec], Diag.empty) ∧
      priorRec ∈ [⟨["new.txt"], "1970-01-01T00:00:00.005Z"⟩, priorRec]) ∧
    scanFolder c7fs true (.ok [priorRec]) = scanFolder c7fs2 true (.ok [priorRec]) := by
  refine ⟨⟨by decide, ?_⟩, ⟨by decide, ?_⟩, ?_⟩
  · exact ((C7_append_only_preserves_prior_entries.1 c7fs (.ok [priorRec])
      [⟨["new.txt"], "1970-01-01T00:00:00.005Z"⟩, priorRec] Diag.empty (by decide)).1
      priorRec (by decide))
  · exact ((C7_append_only_preserves_prior_entries.1 removedFS (.ok [priorRec])
      [⟨["new.txt"], "1970-01-01T00:00:00.005Z"⟩, priorRec] Diag.empty (by decide)).1
      priorRec (by decide))
  · refine C7_append_only_preserves_prior_entries.2 c7fs c7fs2 (.ok [priorRec])
      (fun p => rfl) (fun p => rfl) ?_
    intro p hp
    have hmap : (loadExistingMetadata (LedgerFile.ok [priorRec])).map (fun r => r.path) =
        [["old.txt"]] := by decide
    rw [hmap] at hp
    have hne : p ≠ ["old.txt"] := by simpa using hp
    simp [c7fs, c7fs2, hne]

/-- Restoring a one-row ledger whose timestamp parses to `t` onto an
accessible target sets the target's mtime to `t`, truncated to whole
seconds on darwin by the `touch -t` pass. -/
theorem restore_single (darwin : Bool) (p : List String) (s : String) (t : Int)
    (hparse : fromISOString s = some t) :
    (restoreTimestamps ⟨.ok [⟨some p, s⟩], fun _ => true, fun _ => true,
        fun _ => none, darwin⟩).mtimes p
      = some (if darwin then t / 1000 * 1000 else t) := by
  unfold restoreTimestamps
  simp only [loadMetadata, List.length_cons, List.length_nil, restoreLoop,
    restoreStep, setFileTimestamps, hparse]
  cases darwin <;> simp

/-- C1 counterexample: on darwin the restore path truncates the restored
mtime to whole seconds (`touch -t` carries no millisecond field), so a
file scanned at 2024-01-15T10:30:45.123Z is restored to …45.000 — not
equal to the original at millisecond precision. -/
theorem C1_counterexample_darwin_truncates_milliseconds :
    (restoreTimestamps (c1fs 1705314645123 true)).mtimes ["a.txt"] = some 1705314645000 ∧
    (1705314645000 : Int) ≠ 1705314645123 := by
  refine ⟨by decide, by decide⟩

/-- C1 (amended): for every representable millisecond instant `t` (the
ECMAScript Date range), the serialized timestamp parses back to exactly
`t`, and restoring the scanned record onto a fresh copy of the tree sets
the file's mtime to exactly `t` on non-darwin platforms; on darwin the
extra `touch -t` pass truncates it to whole seconds, so the claimed
millisecond-precision round trip holds only off darwin. -/
theorem C1_mtime_roundtrip_exact_except_darwin (t : Int)
    (ht1 : -62167219200000 ≤ t) (ht2 : t < 253402300800000) :
    fromISOString (toISOString t) = some t ∧
    (restoreTimestamps (c1fs t false)).mtimes ["a.txt"] = some t ∧
    (restoreTimestamps (c1fs t true)).mtimes ["a.txt"] = some (t / 1000 * 1000) := by
  have hparse := fromISOString_toISOString t ht1 ht2
  refine ⟨hparse, ?_, ?_⟩
  · have h := restore_single false ["a.txt"] (toISOString t) t hparse
    simpa [c1fs] using h
  · have h := restore_single true ["a.txt"] (toISOString t) t hparse
    simpa [c1fs] using h

/-- C1 witness: the round trip at the concrete instant
2024-01-15T10:30:45.123Z, hypotheses discharged by evaluation. -/
theorem C1_witness :
    (-62167219200000 ≤ (1705314645123 : Int)) ∧
    ((1705314645123 : Int) < 253402300800000) ∧
    (fromISOString (toISOString 1705314645123) = some 1705314645123 ∧
      (restoreTimestamps (c1fs 1705314645123 false)).mtimes ["a.txt"] = some 1705314645123 ∧
      (restoreTimestamps (c1fs 1705314645123 true)).mtimes ["a.txt"] =
        some (1705314645123 / 1000 * 1000)) :=
  ⟨by decide, by decide,
    C1_mtime_roundtrip_exact_except_darwin 1705314645123 (by decide) (by decide)⟩
